/-
  Verification of the raster label-mask engine of PolyPixTagger
  (src/prototypes/proto_v6.py): the circular paint / erase / probe stamp
  algorithms, category deletion with full-mask clearing, lazy mask loading
  with blank-mask fallback, the tile-based stroke undo/redo recorder, and
  the stroke segment resampler.

  Modelling conventions.  The byte buffer of a Grayscale8 QImage
  (a Python memoryview in the source) is modelled as a total function
  `Mem : Int → Nat` from flat byte offsets to byte values; the pixel
  (x, y) of a mask with row stride `bpl` (bytesPerLine) lives at flat
  offset `y * bpl + x`.  Python loops that write the buffer are translated
  as left folds over the same iteration ranges as the source; memoryview
  slice reads and slice assignments are modelled by `memSlice` and
  `sliceAssign`.  Python `float` arithmetic of the stroke resampler is
  modelled by exact rational arithmetic (see `segmentPoints`).
-/
import Mathlib

set_option maxHeartbeats 1000000

/-- Flat byte buffer of a mask image (the `mbytes` memoryview). -/
abbrev Mem := Int → Nat

/-- Pointwise update of a byte buffer: `mbytes[i] = v`. -/
def upd (m : Mem) (i : Int) (v : Nat) : Mem := fun j => if j = i then v else m j

/-- Inclusive integer range `[lo..hi]`, the iteration order of
`for v in range(lo, hi + 1)`. -/
def intRange (lo hi : Int) : List Int :=
  (List.range (hi + 1 - lo).toNat).map (fun k : Nat => lo + (k : Int))

/-- Slice read `mv[start : start + len]` of a byte buffer. -/
def memSlice (m : Mem) (start : Int) (len : Nat) : List Nat :=
  (List.range len).map (fun k : Nat => m (start + (k : Int)))

/-- Slice assignment `mv[start : start + len(vals)] = vals` on a byte buffer. -/
def sliceAssign (m : Mem) (start : Int) (vals : List Nat) : Mem :=
  fun j =>
    if start ≤ j ∧ j < start + (vals.length : Int) then vals.getD (j - start).toNat 0
    else m j

/-- Qt's QRect: stored as left/top corner plus width and height
(`QRect(x, y, w, h)`); `right = left + width - 1`, `bottom = top + height - 1`. -/
structure QRect where
  left : Int
  top : Int
  width : Int
  height : Int
deriving DecidableEq

def QRect.right (r : QRect) : Int := r.left + r.width - 1

def QRect.bottom (r : QRect) : Int := r.top + r.height - 1

/-- QRect.isEmpty(): true when width or height is not positive. -/
def QRect.isEmpty (r : QRect) : Prop := r.width ≤ 0 ∨ r.height ≤ 0

instance (r : QRect) : Decidable r.isEmpty := by unfold QRect.isEmpty; infer_instance

/-- Pixel membership in a rectangle. -/
def QRect.contains (r : QRect) (px py : Int) : Prop :=
  r.left ≤ px ∧ px ≤ r.right ∧ r.top ≤ py ∧ py ≤ r.bottom

instance (r : QRect) (px py : Int) : Decidable (r.contains px py) := by
  unfold QRect.contains; infer_instance

/-- QRect.intersected: intersection of two rectangles, the null rectangle if
they do not overlap.  (Operands in this development always have non-negative
dimensions, so Qt's normalisation step is the identity on them.) -/
def QRect.intersected (a b : QRect) : QRect :=
  if max a.left b.left ≤ min a.right b.right ∧ max a.top b.top ≤ min a.bottom b.bottom then
    ⟨max a.left b.left, max a.top b.top,
      min a.right b.right - max a.left b.left + 1,
      min a.bottom b.bottom - max a.top b.top + 1⟩
  else ⟨0, 0, 0, 0⟩

/-- QRect.united: bounding rectangle; a null rectangle is ignored. -/
def QRect.united (a b : QRect) : QRect :=
  if a.width = 0 ∧ a.height = 0 then b
  else if b.width = 0 ∧ b.height = 0 then a
  else
    ⟨min a.left b.left, min a.top b.top,
      max a.right b.right - min a.left b.left + 1,
      max a.bottom b.bottom - min a.top b.top + 1⟩

/-- clamp_rect_to_image: `rect.intersected(QRect(0, 0, w, h))`. -/
def clampRect (r : QRect) (w h : Int) : QRect := r.intersected ⟨0, 0, w, h⟩

theorem QRect.contains_intersected (a b : QRect) (px py : Int) :
    (a.intersected b).contains px py ↔ a.contains px py ∧ b.contains px py := by
  unfold QRect.intersected
  split
  all_goals simp only [QRect.contains, QRect.right, QRect.bottom] at *
  · omega
  · omega

theorem contains_clampRect (r : QRect) (w h px py : Int) :
    (clampRect r w h).contains px py ↔
      r.contains px py ∧ 0 ≤ px ∧ px < w ∧ 0 ≤ py ∧ py < h := by
  rw [clampRect, QRect.contains_intersected]
  unfold QRect.contains QRect.right QRect.bottom
  dsimp only
  omega

theorem mem_intRange {lo hi a : Int} : a ∈ intRange lo hi ↔ lo ≤ a ∧ a ≤ hi := by
  unfold intRange
  simp only [List.mem_map, List.mem_range]
  constructor
  · rintro ⟨k, hk, rfl⟩
    omega
  · rintro ⟨h1, h2⟩
    exact ⟨(a - lo).toNat, by omega, by omega⟩

theorem nodup_intRange (lo hi : Int) : (intRange lo hi).Nodup := by
  unfold intRange
  refine List.Nodup.map ?_ (List.nodup_range _)
  intro a b h
  simp only at h
  omega

/-- Row/column decoding of a flat offset: the remainder is the column. -/
theorem emod_flat {bpl xx : Int} (yy : Int) (h0 : 0 ≤ xx) (h1 : xx < bpl) :
    (yy * bpl + xx) % bpl = xx := by
  rw [add_comm, Int.add_mul_emod_self]
  exact Int.emod_eq_of_lt h0 h1

/-- Row/column decoding of a flat offset: the quotient is the row. -/
theorem ediv_flat {bpl xx : Int} (yy : Int) (h0 : 0 ≤ xx) (h1 : xx < bpl) :
    (yy * bpl + xx) / bpl = yy := by
  have hb : (0 : Int) < bpl := lt_of_le_of_lt h0 h1
  rw [add_comm, Int.add_mul_ediv_right _ _ (by omega : bpl ≠ 0),
    Int.ediv_eq_zero_of_lt h0 h1, zero_add]

/-- Reconstruction of a flat offset from its row and column. -/
theorem flat_decompose (j bpl : Int) : (j / bpl) * bpl + j % bpl = j := by
  rw [mul_comm]
  exact Int.ediv_add_emod j bpl

/-- A fold of per-position writes leaves position `j` unchanged when no
iteration touches `j`. -/
theorem foldl_apply_of_not_touched {α : Type} (step : Mem → α → Mem)
    (C : α → Int → Prop)
    (hF : ∀ (m : Mem) (i : α) (j : Int), ¬ C i j → (step m i) j = m j)
    (j : Int) :
    ∀ l : List α, (∀ i ∈ l, ¬ C i j) → ∀ m : Mem, (l.foldl step m) j = m j := by
  intro l
  induction l with
  | nil => intro _ m; rfl
  | cons a t ih =>
    intro h m
    rw [List.foldl_cons, ih (fun i hi => h i (List.mem_cons_of_mem _ hi)),
      hF m a j (h a (List.mem_cons_self a t))]

/-- A fold of per-position writes, where iteration `i` rewrites exactly the
positions satisfying `C i ·` with the value transform `f i · ·`: if a unique
iteration of a duplicate-free list touches `j`, the final value at `j` is that
iteration's transform of the initial value. -/
theorem foldl_apply_of_touched {α : Type} (step : Mem → α → Mem)
    (C : α → Int → Prop) (f : α → Int → Nat → Nat)
    (hT : ∀ (m : Mem) (i : α) (j : Int), C i j → (step m i) j = f i j (m j))
    (hF : ∀ (m : Mem) (i : α) (j : Int), ¬ C i j → (step m i) j = m j)
    (j : Int) :
    ∀ l : List α, l.Nodup → ∀ i ∈ l, C i j → (∀ i' ∈ l, C i' j → i' = i) →
      ∀ m : Mem, (l.foldl step m) j = f i j (m j) := by
  intro l
  induction l with
  | nil => intro _ i hi; cases hi
  | cons a t ih =>
    intro hnd i hi hC huniq m
    rcases List.mem_cons.1 hi with rfl | hi'
    · have hnotin : i ∉ t := (List.nodup_cons.1 hnd).1
      have hrest : ∀ i' ∈ t, ¬ C i' j := by
        intro i' hmem hC'
        exact hnotin ((huniq i' (List.mem_cons_of_mem _ hmem) hC') ▸ hmem)
      rw [List.foldl_cons, foldl_apply_of_not_touched step C hF j t hrest,
        hT m i j hC]
    · have hne : ¬ C a j := fun hCa =>
        (List.nodup_cons.1 hnd).1 ((huniq a (List.mem_cons_self a t) hCa) ▸ hi')
      rw [List.foldl_cons, ih (List.nodup_cons.1 hnd).2 i hi' hC
        (fun i' h1 h2 => huniq i' (List.mem_cons_of_mem _ h1) h2),
        hF m a j hne]

/-- A fold of per-position writes that all write the same constant value:
if any iteration touches `j`, the final value at `j` is that constant
(no uniqueness of the writer is required). -/
theorem foldl_apply_of_touched_const {α : Type} (step : Mem → α → Mem)
    (C : α → Int → Prop) (v : Nat)
    (hT : ∀ (m : Mem) (i : α) (j : Int), C i j → (step m i) j = v)
    (hF : ∀ (m : Mem) (i : α) (j : Int), ¬ C i j → (step m i) j = m j)
    (j : Int) :
    ∀ l : List α, ∀ i ∈ l, C i j → ∀ m : Mem, (l.foldl step m) j = v := by
  intro l
  induction l with
  | nil => intro i hi; cases hi
  | cons a t ih =>
    intro i hi hC m
    by_cases hrest : ∃ i' ∈ t, C i' j
    · obtain ⟨i', hi', hC'⟩ := hrest
      exact ih i' hi' hC' (step m a)
    · push_neg at hrest
      have ha : C a j := by
        rcases List.mem_cons.1 hi with rfl | hi'
        · exact hC
        · exact absurd hC (hrest i hi')
      rw [List.foldl_cons, foldl_apply_of_not_touched step C hF j t hrest,
        hT m a j ha]

/-! ### The circular stamp loops

`EditService.paint_at` / `PixTagMainWindow._dab_set_index` and
`EditService.erase_at` / `PixTagMainWindow._dab_erase` all run the same
nested loop over the clamped bounding box of the stamp circle, differing
only in what they write at an in-circle position.  `maskBoxLoop` is that
shared nested loop, parameterised by the per-byte value transform `val`. -/

/-- Erase modes of the source (`erase_all | erase_only_category |
erase_all_but_category`). -/
inductive EraseMode where
  | eraseAll
  | eraseOnlyCategory
  | eraseAllButCategory
deriving DecidableEq

/-- New value of a byte `cur` lying inside an erase stamp, per mode
(the conditional writes of `_dab_erase`; a byte the code does not write is
returned unchanged). -/
def eraseVal : EraseMode → Option Nat → Nat → Nat
  | .eraseAll, _, cur => if cur ≠ 0 then 0 else cur
  | .eraseOnlyCategory, some s, cur => if cur = s then 0 else cur
  | .eraseOnlyCategory, none, cur => cur
  | .eraseAllButCategory, some s, cur => if cur ≠ 0 ∧ cur ≠ s then 0 else cur
  | .eraseAllButCategory, none, cur => cur

/-- The nested `for yy ... for xx ...` loop over `[x0..x1] × [y0..y1]` that
rewrites every byte at an in-circle position `(xx, yy)` (squared distance to
`(x, y)` at most `rr`) through the transform `val`. -/
def maskBoxLoop (bpl x y x0 x1 y0 y1 rr : Int) (val : Nat → Nat) (m : Mem) : Mem :=
  (intRange y0 y1).foldl (fun mm yy =>
    (intRange x0 x1).foldl (fun mm2 xx =>
      if (xx - x) * (xx - x) + (yy - y) * (yy - y) ≤ rr then
        upd mm2 (yy * bpl + xx) (val (mm2 (yy * bpl + xx)))
      else mm2) mm) m

/-- Single paint dab (`_dab_set_index`, and the loop of
`EditService.paint_at`): writes `idx` to every in-circle byte of the clamped
bounding box and returns the clamped bounding rectangle. -/
def dabSetIndex (w h bpl : Int) (m : Mem) (x y r : Int) (idx : Nat) : Mem × QRect :=
  (maskBoxLoop bpl x y (max 0 (x - r)) (min (w - 1) (x + r)) (max 0 (y - r))
      (min (h - 1) (y + r)) (r * r) (fun _ => idx) m,
    ⟨max 0 (x - r), max 0 (y - r),
      min (w - 1) (x + r) - max 0 (x - r) + 1,
      min (h - 1) (y + r) - max 0 (y - r) + 1⟩)

/-- Single erase dab (`_dab_erase`, and the loop of `EditService.erase_at`):
rewrites every in-circle byte of the clamped bounding box through
`eraseVal mode sel` and returns the clamped bounding rectangle. -/
def dabErase (w h bpl : Int) (m : Mem) (x y r : Int) (mode : EraseMode)
    (sel : Option Nat) : Mem × QRect :=
  (maskBoxLoop bpl x y (max 0 (x - r)) (min (w - 1) (x + r)) (max 0 (y - r))
      (min (h - 1) (y + r)) (r * r) (eraseVal mode sel) m,
    ⟨max 0 (x - r), max 0 (y - r),
      min (w - 1) (x + r) - max 0 (x - r) + 1,
      min (h - 1) (y + r) - max 0 (y - r) + 1⟩)

theorem intRange_eq_nil {lo hi : Int} (h : hi < lo) : intRange lo hi = [] := by
  unfold intRange
  rw [show (hi + 1 - lo).toNat = 0 by omega]
  rfl

/-- Pointwise characterisation of the stamp loop: the byte at flat offset
`j` is transformed exactly when the pixel `(j % bpl, j / bpl)` lies in the
clamped box and in the circle. -/
theorem maskBoxLoop_apply (bpl x y x0 x1 y0 y1 rr : Int) (val : Nat → Nat) (m : Mem)
    (hx0 : 0 ≤ x0) (hx1 : x1 < bpl) (j : Int) :
    maskBoxLoop bpl x y x0 x1 y0 y1 rr val m j =
      if x0 ≤ j % bpl ∧ j % bpl ≤ x1 ∧ y0 ≤ j / bpl ∧ j / bpl ≤ y1 ∧
          (j % bpl - x) * (j % bpl - x) + (j / bpl - y) * (j / bpl - y) ≤ rr
      then val (m j) else m j := by
  by_cases hxr : x0 ≤ x1
  case neg =>
    rw [if_neg (by omega)]
    unfold maskBoxLoop
    refine foldl_apply_of_not_touched _ (fun _ _ => False) ?_ j _ (by simp) m
    intro mm yy j' _
    rw [intRange_eq_nil (by omega)]
    rfl
  case pos =>
  have hb : (0 : Int) < bpl := lt_of_le_of_lt (le_trans hx0 hxr) hx1
  -- pointwise behaviour of one row of the loop
  have hrow : ∀ (yy : Int) (mm : Mem) (j' : Int),
      ((intRange x0 x1).foldl (fun mm2 xx =>
        if (xx - x) * (xx - x) + (yy - y) * (yy - y) ≤ rr then
          upd mm2 (yy * bpl + xx) (val (mm2 (yy * bpl + xx)))
        else mm2) mm) j' =
      if x0 ≤ j' % bpl ∧ j' % bpl ≤ x1 ∧
          (j' % bpl - x) * (j' % bpl - x) + (yy - y) * (yy - y) ≤ rr ∧ j' / bpl = yy
      then val (mm j') else mm j' := by
    intro yy mm j'
    have hT : ∀ (mm2 : Mem) (xx : Int) (j2 : Int),
        ((xx - x) * (xx - x) + (yy - y) * (yy - y) ≤ rr ∧ yy * bpl + xx = j2) →
        ((if (xx - x) * (xx - x) + (yy - y) * (yy - y) ≤ rr then
            upd mm2 (yy * bpl + xx) (val (mm2 (yy * bpl + xx)))
          else mm2) : Mem) j2 = val (mm2 j2) := by
      rintro mm2 xx j2 ⟨h1, rfl⟩
      rw [if_pos h1]
      simp [upd]
    have hF : ∀ (mm2 : Mem) (xx : Int) (j2 : Int),
        ¬ ((xx - x) * (xx - x) + (yy - y) * (yy - y) ≤ rr ∧ yy * bpl + xx = j2) →
        ((if (xx - x) * (xx - x) + (yy - y) * (yy - y) ≤ rr then
            upd mm2 (yy * bpl + xx) (val (mm2 (yy * bpl + xx)))
          else mm2) : Mem) j2 = mm2 j2 := by
      intro mm2 xx j2 hn
      by_cases hcir : (xx - x) * (xx - x) + (yy - y) * (yy - y) ≤ rr
      · rw [if_pos hcir]
        exact if_neg (fun heq => hn ⟨hcir, heq.symm⟩)
      · rw [if_neg hcir]
    by_cases hc : x0 ≤ j' % bpl ∧ j' % bpl ≤ x1 ∧
        (j' % bpl - x) * (j' % bpl - x) + (yy - y) * (yy - y) ≤ rr ∧ j' / bpl = yy
    · rw [if_pos hc]
      refine foldl_apply_of_touched _ _ (fun _ _ v => val v) hT hF j' _
        (nodup_intRange _ _) (j' % bpl) (mem_intRange.2 ⟨hc.1, hc.2.1⟩)
        ⟨hc.2.2.1, ?_⟩ ?_ mm
      · rw [← hc.2.2.2]
        exact flat_decompose j' bpl
      · intro xx' hmem' hC'
        obtain ⟨hcir', heq'⟩ := hC'
        have hbx : 0 ≤ xx' ∧ xx' < bpl := by
          have := mem_intRange.1 hmem'
          omega
        have hmf := emod_flat yy hbx.1 hbx.2
        rw [heq'] at hmf
        omega
    · rw [if_neg hc]
      refine foldl_apply_of_not_touched _ _ hF j' _ ?_ mm
      intro xx hmem hC'
      obtain ⟨hcir, heq⟩ := hC'
      have hbx : 0 ≤ xx ∧ xx < bpl := by
        have := mem_intRange.1 hmem
        omega
      have h1 := emod_flat yy hbx.1 hbx.2
      have h2 := ediv_flat yy hbx.1 hbx.2
      rw [heq] at h1 h2
      have hmem' := mem_intRange.1 hmem
      refine hc ⟨by omega, by omega, ?_, by omega⟩
      rw [h1]
      exact hcir
  -- outer fold over the rows
  have hT' : ∀ (mm : Mem) (yy : Int) (j' : Int),
      (x0 ≤ j' % bpl ∧ j' % bpl ≤ x1 ∧
        (j' % bpl - x) * (j' % bpl - x) + (yy - y) * (yy - y) ≤ rr ∧ j' / bpl = yy) →
      ((intRange x0 x1).foldl (fun mm2 xx =>
        if (xx - x) * (xx - x) + (yy - y) * (yy - y) ≤ rr then
          upd mm2 (yy * bpl + xx) (val (mm2 (yy * bpl + xx)))
        else mm2) mm) j' = val (mm j') := by
    intro mm yy j' hcond
    rw [hrow yy mm j', if_pos hcond]
  have hF' : ∀ (mm : Mem) (yy : Int) (j' : Int),
      ¬ (x0 ≤ j' % bpl ∧ j' % bpl ≤ x1 ∧
        (j' % bpl - x) * (j' % bpl - x) + (yy - y) * (yy - y) ≤ rr ∧ j' / bpl = yy) →
      ((intRange x0 x1).foldl (fun mm2 xx =>
        if (xx - x) * (xx - x) + (yy - y) * (yy - y) ≤ rr then
          upd mm2 (yy * bpl + xx) (val (mm2 (yy * bpl + xx)))
        else mm2) mm) j' = mm j' := by
    intro mm yy j' hcond
    rw [hrow yy mm j', if_neg hcond]
  by_cases hall : x0 ≤ j % bpl ∧ j % bpl ≤ x1 ∧ y0 ≤ j / bpl ∧ j / bpl ≤ y1 ∧
      (j % bpl - x) * (j % bpl - x) + (j / bpl - y) * (j / bpl - y) ≤ rr
  · rw [if_pos hall]
    exact foldl_apply_of_touched _ _ (fun _ _ v => val v) hT' hF' j _
      (nodup_intRange _ _) (j / bpl) (mem_intRange.2 ⟨hall.2.2.1, hall.2.2.2.1⟩)
      ⟨hall.1, hall.2.1, hall.2.2.2.2, rfl⟩
      (fun yy' _ hC' => hC'.2.2.2.symm) m
  · rw [if_neg hall]
    refine foldl_apply_of_not_touched _ _ hF' j _ ?_ m
    intro yy hmem hC'
    have := mem_intRange.1 hmem
    refine hall ⟨hC'.1, hC'.2.1, ?_, ?_, ?_⟩
    · omega
    · omega
    · rw [hC'.2.2.2]
      exact hC'.2.2.1

/-- Convenience: the flat offset of pixel `(xx, yy)` decodes back to that
pixel when the column is a valid in-row offset. -/
theorem decode_pixel {bpl xx : Int} (yy : Int) (h0 : 0 ≤ xx) (h1 : xx < bpl) :
    (yy * bpl + xx) % bpl = xx ∧ (yy * bpl + xx) / bpl = yy :=
  ⟨emod_flat yy h0 h1, ediv_flat yy h0 h1⟩

/-- Pointwise value of the paint dab's buffer (specialisation of
`maskBoxLoop_apply`). -/
theorem dabSetIndex_fst_apply (w h bpl : Int) (m : Mem) (x y r : Int) (idx : Nat)
    (hx1 : min (w - 1) (x + r) < bpl) (j : Int) :
    (dabSetIndex w h bpl m x y r idx).1 j =
      if max 0 (x - r) ≤ j % bpl ∧ j % bpl ≤ min (w - 1) (x + r) ∧
          max 0 (y - r) ≤ j / bpl ∧ j / bpl ≤ min (h - 1) (y + r) ∧
          (j % bpl - x) * (j % bpl - x) + (j / bpl - y) * (j / bpl - y) ≤ r * r
      then idx else m j :=
  maskBoxLoop_apply bpl x y _ _ _ _ (r * r) (fun _ => idx) m (le_max_left 0 (x - r)) hx1 j

/-- Pointwise value of the erase dab's buffer (specialisation of
`maskBoxLoop_apply`). -/
theorem dabErase_fst_apply (w h bpl : Int) (m : Mem) (x y r : Int)
    (mode : EraseMode) (sel : Option Nat) (hx1 : min (w - 1) (x + r) < bpl) (j : Int) :
    (dabErase w h bpl m x y r mode sel).1 j =
      if max 0 (x - r) ≤ j % bpl ∧ j % bpl ≤ min (w - 1) (x + r) ∧
          max 0 (y - r) ≤ j / bpl ∧ j / bpl ≤ min (h - 1) (y + r) ∧
          (j % bpl - x) * (j % bpl - x) + (j / bpl - y) * (j / bpl - y) ≤ r * r
      then eraseVal mode sel (m j) else m j :=
  maskBoxLoop_apply bpl x y _ _ _ _ (r * r) (eraseVal mode sel) m (le_max_left 0 (x - r)) hx1 j

/-- Claim C2: a paint stamp at integer centre `(x, y)` with radius `r ≥ 1`
writes the selected category index `idx` to every pixel of the clamped
bounding box whose squared distance to the centre is at most `r²` (pixels
exactly on the radius included), unconditionally overwriting any previous
byte value (the initial buffer `m` is arbitrary and no other condition gates
the write), and returns exactly the clamped bounding rectangle
`[max(0, x−r), min(w−1, x+r)] × [max(0, y−r), min(h−1, y+r)]`, not the
unclamped circle bounding box. -/
theorem paint_stamp_spec (w h bpl : Int) (m : Mem) (x y r : Int) (idx : Nat)
    (hr : 1 ≤ r) (hwb : w ≤ bpl) :
    (∀ xx yy : Int,
      max 0 (x - r) ≤ xx → xx ≤ min (w - 1) (x + r) →
      max 0 (y - r) ≤ yy → yy ≤ min (h - 1) (y + r) →
      (xx - x) * (xx - x) + (yy - y) * (yy - y) ≤ r * r →
      (dabSetIndex w h bpl m x y r idx).1 (yy * bpl + xx) = idx) ∧
    (dabSetIndex w h bpl m x y r idx).2 =
      ⟨max 0 (x - r), max 0 (y - r),
        min (w - 1) (x + r) - max 0 (x - r) + 1,
        min (h - 1) (y + r) - max 0 (y - r) + 1⟩ := by
  constructor
  · intro xx yy h1 h2 h3 h4 hcir
    have hxb : xx < bpl := by omega
    have hx0 : (0 : Int) ≤ xx := by omega
    obtain ⟨hm, hd⟩ := decode_pixel yy hx0 hxb
    rw [dabSetIndex_fst_apply w h bpl m x y r idx (by omega), hm, hd,
      if_pos ⟨h1, h2, h3, h4, hcir⟩]
  · rfl

theorem paint_stamp_spec_witness :
    (∀ xx yy : Int,
      max 0 (1 - 1) ≤ xx → xx ≤ min (4 - 1) (1 + 1) →
      max 0 (1 - 1) ≤ yy → yy ≤ min (4 - 1) (1 + 1) →
      (xx - 1) * (xx - 1) + (yy - 1) * (yy - 1) ≤ 1 * 1 →
      (dabSetIndex 4 4 4 (fun _ => 9) 1 1 1 3).1 (yy * 4 + xx) = 3) ∧
    (dabSetIndex 4 4 4 (fun _ => 9) 1 1 1 3).2 =
      ⟨max 0 (1 - 1), max 0 (1 - 1),
        min (4 - 1) (1 + 1) - max 0 (1 - 1) + 1,
        min (4 - 1) (1 + 1) - max 0 (1 - 1) + 1⟩ :=
  paint_stamp_spec 4 4 4 (fun _ => 9) 1 1 1 3 (by decide) (by decide)

/-- Claim C3: an erase stamp at integer centre `(x, y)` with radius `r ≥ 1`,
over exactly the pixels of the clamped bounding box with squared distance at
most `r²`: mode `erase_all` clears every nonzero byte to 0, mode
`erase_only_category` clears exactly the bytes equal to the selected
category's index, mode `erase_all_but_category` clears exactly the nonzero
bytes different from the selected index; every byte at a pixel not in that
set is unchanged; and the stamp returns the clamped bounding rectangle. -/
theorem erase_stamp_spec (w h bpl : Int) (m : Mem) (x y r : Int)
    (mode : EraseMode) (sel : Option Nat) (hr : 1 ≤ r) (hwb : w ≤ bpl) :
    (∀ xx yy : Int,
      max 0 (x - r) ≤ xx → xx ≤ min (w - 1) (x + r) →
      max 0 (y - r) ≤ yy → yy ≤ min (h - 1) (y + r) →
      (xx - x) * (xx - x) + (yy - y) * (yy - y) ≤ r * r →
      ((mode = EraseMode.eraseAll →
        (dabErase w h bpl m x y r mode sel).1 (yy * bpl + xx) =
          if m (yy * bpl + xx) ≠ 0 then 0 else m (yy * bpl + xx)) ∧
      (∀ s : Nat, mode = EraseMode.eraseOnlyCategory → sel = some s →
        (dabErase w h bpl m x y r mode sel).1 (yy * bpl + xx) =
          if m (yy * bpl + xx) = s then 0 else m (yy * bpl + xx)) ∧
      (∀ s : Nat, mode = EraseMode.eraseAllButCategory → sel = some s →
        (dabErase w h bpl m x y r mode sel).1 (yy * bpl + xx) =
          if m (yy * bpl + xx) ≠ 0 ∧ m (yy * bpl + xx) ≠ s then 0
          else m (yy * bpl + xx)))) ∧
    (∀ xx yy : Int, 0 ≤ xx → xx < bpl →
      ¬ (max 0 (x - r) ≤ xx ∧ xx ≤ min (w - 1) (x + r) ∧
          max 0 (y - r) ≤ yy ∧ yy ≤ min (h - 1) (y + r) ∧
          (xx - x) * (xx - x) + (yy - y) * (yy - y) ≤ r * r) →
      (dabErase w h bpl m x y r mode sel).1 (yy * bpl + xx) = m (yy * bpl + xx)) ∧
    (dabErase w h bpl m x y r mode sel).2 =
      ⟨max 0 (x - r), max 0 (y - r),
        min (w - 1) (x + r) - max 0 (x - r) + 1,
        min (h - 1) (y + r) - max 0 (y - r) + 1⟩ := by
  refine ⟨?_, ?_, rfl⟩
  · intro xx yy h1 h2 h3 h4 hcir
    have hxb : xx < bpl := by omega
    have hx0 : (0 : Int) ≤ xx := by omega
    obtain ⟨hm, hd⟩ := decode_pixel yy hx0 hxb
    have hloop : (dabErase w h bpl m x y r mode sel).1 (yy * bpl + xx) =
        eraseVal mode sel (m (yy * bpl + xx)) := by
      rw [dabErase_fst_apply w h bpl m x y r mode sel (by omega), hm, hd,
        if_pos ⟨h1, h2, h3, h4, hcir⟩]
    refine ⟨?_, ?_, ?_⟩
    · rintro rfl
      rw [hloop]
      rfl
    · rintro s rfl rfl
      rw [hloop]
      rfl
    · rintro s rfl rfl
      rw [hloop]
      rfl
  · intro xx yy hx0 hxb hnot
    obtain ⟨hm, hd⟩ := decode_pixel yy hx0 hxb
    rw [dabErase_fst_apply w h bpl m x y r mode sel (by omega), hm, hd, if_neg hnot]

theorem erase_stamp_spec_witness :
    (∀ xx yy : Int,
      max 0 (1 - 1) ≤ xx → xx ≤ min (4 - 1) (1 + 1) →
      max 0 (1 - 1) ≤ yy → yy ≤ min (4 - 1) (1 + 1) →
      (xx - 1) * (xx - 1) + (yy - 1) * (yy - 1) ≤ 1 * 1 →
      ((EraseMode.eraseOnlyCategory = EraseMode.eraseAll →
        (dabErase 4 4 4 (fun _ => 2) 1 1 1 EraseMode.eraseOnlyCategory (some 2)).1
          (yy * 4 + xx) =
          if (fun _ : Int => 2) (yy * 4 + xx) ≠ 0 then 0
          else (fun _ : Int => 2) (yy * 4 + xx)) ∧
      (∀ s : Nat, EraseMode.eraseOnlyCategory = EraseMode.eraseOnlyCategory →
        (some 2 : Option Nat) = some s →
        (dabErase 4 4 4 (fun _ => 2) 1 1 1 EraseMode.eraseOnlyCategory (some 2)).1
          (yy * 4 + xx) =
          if (fun _ : Int => 2) (yy * 4 + xx) = s then 0
          else (fun _ : Int => 2) (yy * 4 + xx)) ∧
      (∀ s : Nat, EraseMode.eraseOnlyCategory = EraseMode.eraseAllButCategory →
        (some 2 : Option Nat) = some s →
        (dabErase 4 4 4 (fun _ => 2) 1 1 1 EraseMode.eraseOnlyCategory (some 2)).1
          (yy * 4 + xx) =
          if (fun _ : Int => 2) (yy * 4 + xx) ≠ 0 ∧ (fun _ : Int => 2) (yy * 4 + xx) ≠ s
          then 0 else (fun _ : Int => 2) (yy * 4 + xx)))) ∧
    (∀ xx yy : Int, 0 ≤ xx → xx < 4 →
      ¬ (max 0 (1 - 1) ≤ xx ∧ xx ≤ min (4 - 1) (1 + 1) ∧
          max 0 (1 - 1) ≤ yy ∧ yy ≤ min (4 - 1) (1 + 1) ∧
          (xx - 1) * (xx - 1) + (yy - 1) * (yy - 1) ≤ 1 * 1) →
      (dabErase 4 4 4 (fun _ => 2) 1 1 1 EraseMode.eraseOnlyCategory (some 2)).1
        (yy * 4 + xx) = (fun _ : Int => 2) (yy * 4 + xx)) ∧
    (dabErase 4 4 4 (fun _ => 2) 1 1 1 EraseMode.eraseOnlyCategory (some 2)).2 =
      ⟨max 0 (1 - 1), max 0 (1 - 1),
        min (4 - 1) (1 + 1) - max 0 (1 - 1) + 1,
        min (4 - 1) (1 + 1) - max 0 (1 - 1) + 1⟩ :=
  erase_stamp_spec 4 4 4 (fun _ => 2) 1 1 1 EraseMode.eraseOnlyCategory (some 2)
    (by decide) (by decide)

/-- Claim C10 (frame effect): a single paint or erase dab never writes any
byte at an image pixel lying outside the clamped bounding rectangle it
returns: for every pixel `(px, py)` of the image outside the returned
rectangle, the byte at flat offset `py * bpl + px` is unchanged. -/
theorem dab_frame_effect (w h bpl : Int) (m : Mem) (x y r : Int) (idx : Nat)
    (mode : EraseMode) (sel : Option Nat) (hwb : w ≤ bpl) :
    ∀ px py : Int, 0 ≤ px → px < w →
      (¬ (dabSetIndex w h bpl m x y r idx).2.contains px py →
        (dabSetIndex w h bpl m x y r idx).1 (py * bpl + px) = m (py * bpl + px)) ∧
      (¬ (dabErase w h bpl m x y r mode sel).2.contains px py →
        (dabErase w h bpl m x y r mode sel).1 (py * bpl + px) = m (py * bpl + px)) := by
  intro px py hp0 hpw
  have hpb : px < bpl := by omega
  obtain ⟨hm, hd⟩ := decode_pixel py hp0 hpb
  have hcont :
      (⟨max 0 (x - r), max 0 (y - r),
        min (w - 1) (x + r) - max 0 (x - r) + 1,
        min (h - 1) (y + r) - max 0 (y - r) + 1⟩ : QRect).contains px py ↔
      (max 0 (x - r) ≤ px ∧ px ≤ min (w - 1) (x + r) ∧
        max 0 (y - r) ≤ py ∧ py ≤ min (h - 1) (y + r)) := by
    unfold QRect.contains QRect.right QRect.bottom
    dsimp only
    omega
  constructor
  · intro hout
    rw [dabSetIndex_fst_apply w h bpl m x y r idx (by omega), hm, hd, if_neg]
    intro hcond
    exact hout (hcont.2 ⟨hcond.1, hcond.2.1, hcond.2.2.1, hcond.2.2.2.1⟩)
  · intro hout
    rw [dabErase_fst_apply w h bpl m x y r mode sel (by omega), hm, hd, if_neg]
    intro hcond
    exact hout (hcont.2 ⟨hcond.1, hcond.2.1, hcond.2.2.1, hcond.2.2.2.1⟩)

theorem dab_frame_effect_witness :
    (dabSetIndex 4 4 4 (fun _ => 9) 1 1 1 3).1 (3 * 4 + 3) = 9 ∧
    (dabErase 4 4 4 (fun _ => 9) 1 1 1 EraseMode.eraseAll none).1 (3 * 4 + 3) = 9 :=
  ⟨(dab_frame_effect 4 4 4 (fun _ => 9) 1 1 1 3 EraseMode.eraseAll none (by decide)
      3 3 (by decide) (by decide)).1 (by decide),
    (dab_frame_effect 4 4 4 (fun _ => 9) 1 1 1 3 EraseMode.eraseAll none (by decide)
      3 3 (by decide) (by decide)).2 (by decide)⟩

/-! ### Tile byte snapshots

`_StrokeMaskRecorder._copy_rect_bytes` packs the Grayscale8 pixels of a
rectangle row by row into a flat byte string; `_write_rect_bytes` writes
such packed bytes back, raising `ValueError` (modelled as `none`) on a
length mismatch.  Rectangles in this development always have non-negative
dimensions, so `rect.normalized()` is the identity on them. -/

/-- Flat offset of the first byte of packed row `ry` of `rect`. -/
def rowStart (bpl : Int) (rect : QRect) (ry : Nat) : Int :=
  (rect.top + (ry : Int)) * bpl + rect.left

/-- `_copy_rect_bytes(mask, rect)`: pack the bytes of `rect` row by row. -/
def copyRectBytes (bpl : Int) (m : Mem) (rect : QRect) : List Nat :=
  (List.range rect.height.toNat).flatMap
    (fun ry : Nat => memSlice m (rowStart bpl rect ry) rect.width.toNat)

/-- `_write_rect_bytes(mask, rect, data)`: write packed bytes back row by
row; `none` models the `ValueError` on a length mismatch. -/
def writeRectBytes (bpl : Int) (m : Mem) (rect : QRect) (data : List Nat) : Option Mem :=
  if rect.isEmpty then some m
  else if data.length ≠ rect.width.toNat * rect.height.toNat then none
  else some ((List.range rect.height.toNat).foldl
    (fun mm ry =>
      sliceAssign mm (rowStart bpl rect ry)
        ((data.drop (ry * rect.width.toNat)).take rect.width.toNat)) m)

theorem length_memSlice (m : Mem) (start : Int) (len : Nat) :
    (memSlice m start len).length = len := by
  simp [memSlice]

theorem getD_memSlice (m : Mem) (start : Int) (len k : Nat) (h : k < len) :
    (memSlice m start len).getD k 0 = m (start + (k : Int)) := by
  rw [memSlice, List.getD_eq_getElem?_getD, List.getElem?_map, List.getElem?_range h]
  rfl

theorem length_flatMap_const (f : Nat → List Nat) (wdt : Nat)
    (hf : ∀ i, (f i).length = wdt) (n : Nat) :
    ((List.range n).flatMap f).length = n * wdt := by
  induction n with
  | zero => simp
  | succ n ih =>
    rw [List.range_succ, List.flatMap_append, List.length_append, ih]
    simp [hf]
    ring

theorem length_copyRectBytes (bpl : Int) (m : Mem) (rect : QRect) :
    (copyRectBytes bpl m rect).length = rect.width.toNat * rect.height.toNat := by
  rw [copyRectBytes,
    length_flatMap_const _ rect.width.toNat (fun i => length_memSlice _ _ _)]
  ring

theorem flatMap_range_getD (f : Nat → List Nat) (wdt : Nat)
    (hf : ∀ i, (f i).length = wdt) (n ry k : Nat) (hry : ry < n) (hk : k < wdt) :
    ((List.range n).flatMap f).getD (ry * wdt + k) 0 = (f ry).getD k 0 := by
  induction n with
  | zero => omega
  | succ n ih =>
    rw [List.range_succ, List.flatMap_append]
    rcases Nat.lt_or_ge ry n with hlt | hge
    · rw [List.getD_eq_getElem?_getD, List.getElem?_append_left, ← List.getD_eq_getElem?_getD]
      · exact ih hlt
      · rw [length_flatMap_const f wdt hf n]
        have : ry + 1 ≤ n := hlt
        calc ry * wdt + k < ry * wdt + wdt := by omega
        _ = (ry + 1) * wdt := by ring
        _ ≤ n * wdt := Nat.mul_le_mul_right wdt this
    · have hryn : ry = n := by omega
      subst hryn
      rw [List.getD_eq_getElem?_getD, List.getElem?_append_right, ← List.getD_eq_getElem?_getD]
      · rw [length_flatMap_const f wdt hf ry]
        have : ry * wdt + k - ry * wdt = k := by omega
        rw [this]
        simp
      · rw [length_flatMap_const f wdt hf ry]
        omega

theorem getD_copyRectBytes (bpl : Int) (m : Mem) (rect : QRect) (ry k : Nat)
    (hry : ry < rect.height.toNat) (hk : k < rect.width.toNat) :
    (copyRectBytes bpl m rect).getD (ry * rect.width.toNat + k) 0 =
      m (rowStart bpl rect ry + (k : Int)) := by
  rw [copyRectBytes,
    flatMap_range_getD _ rect.width.toNat (fun i => length_memSlice _ _ _) _ _ _ hry hk,
    getD_memSlice _ _ _ _ hk]

/-- Any position covered by a packed row of `rect` decodes to a pixel of
`rect`'s row `top + ry`, provided the row fits inside the stride. -/
theorem row_cover_decode (bpl : Int) (rect : QRect) (hL : 0 ≤ rect.left)
    (hR : rect.left + rect.width ≤ bpl) (ry : Nat) (j : Int)
    (h1 : rowStart bpl rect ry ≤ j) (h2 : j < rowStart bpl rect ry + rect.width) :
    j / bpl = rect.top + (ry : Int) ∧
      rect.left ≤ j % bpl ∧ j % bpl < rect.left + rect.width := by
  have hb : (0 : Int) < bpl := by omega
  unfold rowStart at h1 h2
  have hj : j = (rect.top + (ry : Int)) * bpl + (j - (rect.top + (ry : Int)) * bpl) := by
    omega
  have hx0 : (0 : Int) ≤ j - (rect.top + (ry : Int)) * bpl := by omega
  have hx1 : j - (rect.top + (ry : Int)) * bpl < bpl := by omega
  have he := emod_flat (rect.top + (ry : Int)) hx0 hx1
  have hd := ediv_flat (rect.top + (ry : Int)) hx0 hx1
  rw [← hj] at he hd
  omega

/-- Round trip of the tile snapshots: writing back the packed copy of `rect`
taken from `src` succeeds and overwrites exactly the bytes of `rect`'s
pixels with `src`'s bytes, leaving every other byte of `dst` unchanged. -/
theorem writeRectBytes_copy (bpl : Int) (src dst : Mem) (rect : QRect)
    (hL : 0 ≤ rect.left) (hR : rect.left + rect.width ≤ bpl) (hb : 0 < bpl) :
    ∃ m', writeRectBytes bpl dst rect (copyRectBytes bpl src rect) = some m' ∧
      ∀ j : Int, m' j = if rect.contains (j % bpl) (j / bpl) then src j else dst j := by
  by_cases hemp : rect.isEmpty
  · refine ⟨dst, ?_, ?_⟩
    · rw [writeRectBytes, if_pos hemp]
    · intro j
      rw [if_neg]
      intro hcont
      unfold QRect.isEmpty at hemp
      unfold QRect.contains QRect.right QRect.bottom at hcont
      omega
  · have hwh : 0 < rect.width ∧ 0 < rect.height := by
      unfold QRect.isEmpty at hemp
      omega
    have hlen := length_copyRectBytes bpl src rect
    refine ⟨(List.range rect.height.toNat).foldl
        (fun mm ry => sliceAssign mm (rowStart bpl rect ry)
          (((copyRectBytes bpl src rect).drop (ry * rect.width.toNat)).take
            rect.width.toNat)) dst, ?_, ?_⟩
    · rw [writeRectBytes, if_neg hemp, if_neg (by rw [hlen]; exact fun hne => hne rfl)]
    -- pointwise analysis of the row fold
    intro j
    have hvals_len : ∀ ry : Nat, ry < rect.height.toNat →
        (((copyRectBytes bpl src rect).drop (ry * rect.width.toNat)).take
          rect.width.toNat).length = rect.width.toNat := by
      intro ry hry
      rw [List.length_take, List.length_drop, hlen]
      have : (ry + 1) * rect.width.toNat ≤ rect.width.toNat * rect.height.toNat := by
        rw [mul_comm rect.width.toNat rect.height.toNat]
        exact Nat.mul_le_mul_right _ (by omega)
      have h2 : ry * rect.width.toNat + rect.width.toNat ≤
          rect.width.toNat * rect.height.toNat := by
        have h3 : (ry + 1) * rect.width.toNat =
            ry * rect.width.toNat + rect.width.toNat := by ring
        omega
      omega
    have hvals_getD : ∀ ry : Nat, ry < rect.height.toNat → ∀ k : Nat, k < rect.width.toNat →
        (((copyRectBytes bpl src rect).drop (ry * rect.width.toNat)).take
          rect.width.toNat).getD k 0 = src (rowStart bpl rect ry + (k : Int)) := by
      intro ry hry k hk
      rw [List.getD_eq_getElem?_getD, List.getElem?_take_of_lt hk,
        List.getElem?_drop, ← List.getD_eq_getElem?_getD]
      exact getD_copyRectBytes bpl src rect ry k hry hk
    have hT : ∀ (mm : Mem) (ry : Nat) (j' : Int),
        (ry < rect.height.toNat ∧ rowStart bpl rect ry ≤ j' ∧
          j' < rowStart bpl rect ry + rect.width) →
        (sliceAssign mm (rowStart bpl rect ry)
          (((copyRectBytes bpl src rect).drop (ry * rect.width.toNat)).take
            rect.width.toNat)) j' = src j' := by
      rintro mm ry j' ⟨hry, hs1, hs2⟩
      unfold sliceAssign
      rw [if_pos]
      · rw [hvals_getD ry hry (j' - rowStart bpl rect ry).toNat (by omega)]
        congr 1
        omega
      · rw [hvals_len ry hry]
        omega
    have hF : ∀ (mm : Mem) (ry : Nat) (j' : Int),
        ¬ (ry < rect.height.toNat ∧ rowStart bpl rect ry ≤ j' ∧
          j' < rowStart bpl rect ry + rect.width) →
        (sliceAssign mm (rowStart bpl rect ry)
          (((copyRectBytes bpl src rect).drop (ry * rect.width.toNat)).take
            rect.width.toNat)) j' = mm j' := by
      intro mm ry j' hn
      unfold sliceAssign
      rw [if_neg]
      intro hcond
      rcases Nat.lt_or_ge ry rect.height.toNat with hry | hry
      · rw [hvals_len ry hry] at hcond
        refine hn ⟨hry, hcond.1, ?_⟩
        have := hcond.2
        omega
      · have hdrop : ((copyRectBytes bpl src rect).drop (ry * rect.width.toNat)) = [] := by
          rw [List.drop_eq_nil_iff, hlen]
          calc rect.width.toNat * rect.height.toNat
              = rect.height.toNat * rect.width.toNat := by ring
          _ ≤ ry * rect.width.toNat := Nat.mul_le_mul_right _ hry
        rw [hdrop] at hcond
        simp at hcond
        omega
    by_cases hall : rect.contains (j % bpl) (j / bpl)
    · rw [if_pos hall]
      unfold QRect.contains QRect.right QRect.bottom at hall
      have hrange : ((j / bpl - rect.top).toNat : Int) = j / bpl - rect.top := by omega
      have hmem : (j / bpl - rect.top).toNat ∈ List.range rect.height.toNat := by
        rw [List.mem_range]
        omega
      have hrs : rowStart bpl rect (j / bpl - rect.top).toNat =
          (j / bpl) * bpl + rect.left := by
        unfold rowStart
        rw [hrange]
        ring_nf
      have hdec := flat_decompose j bpl
      refine foldl_apply_of_touched _ _ (fun _ j' _ => src j') hT hF j _
        (List.nodup_range _) (j / bpl - rect.top).toNat hmem
        ⟨by rw [List.mem_range] at hmem; exact hmem, ?_, ?_⟩ ?_ dst
      · rw [hrs]; omega
      · rw [hrs]; omega
      · intro ry' hmem' hC'
        have := row_cover_decode bpl rect hL hR ry' j hC'.2.1 hC'.2.2
        omega
    · rw [if_neg hall]
      refine foldl_apply_of_not_touched _ _ hF j _ ?_ dst
      intro ry hmem hC
      have hdc := row_cover_decode bpl rect hL hR ry j hC.2.1 hC.2.2
      rw [List.mem_range] at hmem
      unfold QRect.contains QRect.right QRect.bottom at hall
      refine hall ⟨hdc.2.1, by omega, by omega, ?_⟩
      have : ((ry : Int)) ≤ rect.height - 1 := by omega
      omega

/-! ### Stroke recorder (`_StrokeMaskRecorder`) and undo command
(`MaskTilesUndoCommand`)

The recorder snapshots, once per stroke, the bytes of every fixed-grid tile
(tile edge `tsz = 128` in the source, aligned to pixel (0,0)) overlapped by
a mutated region, before the mutation.  `MaskTilesUndoCommand._apply`
writes the per-tile byte arrays back (its layer lookup and overlay refresh
act outside the mask bytes and are not modelled). -/

/-- Pixel-set membership of a flat offset in a rectangle. -/
def posInRect (bpl : Int) (rect : QRect) (j : Int) : Prop :=
  rect.contains (j % bpl) (j / bpl)

instance (bpl : Int) (rect : QRect) (j : Int) : Decidable (posInRect bpl rect j) := by
  unfold posInRect; infer_instance

/-- `_tile_rect(tx, ty, w, h)`: the grid tile clamped to the image. -/
def tileRect (tsz tx ty w h : Int) : QRect :=
  clampRect ⟨tx * tsz, ty * tsz, tsz, tsz⟩ w h

/-- Recorder state: owning layer id (`None` when idle), captured tiles in
insertion order (key, clamped tile rect, "before" bytes), and the union of
the dirty rects seen. -/
structure RecSt where
  layerId : Option String
  tiles : List ((Int × Int) × QRect × List Nat)
  dirtyUnion : Option QRect

/-- `begin(layer_id)`. -/
def recBegin (lid : String) : RecSt := ⟨some lid, [], none⟩

/-- Keys `(tx, ty)` of the grid tiles overlapped by a (clamped, non-empty)
rectangle, in the source's iteration order (`ty` outer, `tx` inner). -/
def tileKeysOf (tsz : Int) (rect : QRect) : List (Int × Int) :=
  (intRange (rect.top / tsz) (rect.bottom / tsz)).flatMap
    (fun ty => (intRange (rect.left / tsz) (rect.right / tsz)).map (fun tx => (tx, ty)))

/-- Body of the tile loop of `capture_before_for_rect`: snapshot the tile
`key` unless it was already captured this stroke. -/
def capStep (tsz bpl w h : Int) (m : Mem)
    (ts : List ((Int × Int) × QRect × List Nat)) (key : Int × Int) :
    List ((Int × Int) × QRect × List Nat) :=
  if (ts.lookup key).isSome then ts
  else ts ++ [(key, tileRect tsz key.1 key.2 w h,
    copyRectBytes bpl m (tileRect tsz key.1 key.2 w h))]

/-- `capture_before_for_rect(mask, rect, img_w, img_h)`: clamp, update the
dirty union, and snapshot each overlapped tile not yet captured. -/
def captureBeforeForRect (tsz bpl : Int) (m : Mem) (rec : RecSt) (rect : QRect)
    (w h : Int) : RecSt :=
  if (clampRect rect w h).isEmpty then rec
  else
    { layerId := rec.layerId
      tiles := (tileKeysOf tsz (clampRect rect w h)).foldl (capStep tsz bpl w h m) rec.tiles
      dirtyUnion := some (match rec.dirtyUnion with
        | none => clampRect rect w h
        | some d => d.united (clampRect rect w h)) }

/-- `MaskTilesUndoCommand`: per-tile rects with before/after byte arrays
plus the union of the dirty rects. -/
structure Cmd where
  layerId : String
  tiles : List ((Int × Int) × QRect × List Nat × List Nat)
  dirty : QRect
deriving DecidableEq

/-- `build_command(mask, ..., img_w, img_h)`: `none` when not recording,
when no tile was captured, or when no captured tile's current ("after")
bytes differ from its "before" bytes; otherwise the undo command.  (The
source stores the recomputed "after" snapshots in a dict and compares them
against "before"; `List.all` over the captured tiles performs the same
comparison.) -/
def buildCommand (bpl : Int) (rec : RecSt) (m : Mem) (w h : Int) : Option Cmd :=
  match rec.layerId with
  | none => none
  | some lid =>
    if rec.tiles.isEmpty then none
    else if rec.tiles.all (fun e => copyRectBytes bpl m e.2.1 == e.2.2) then none
    else some
      { layerId := lid
        tiles := rec.tiles.map (fun e => (e.1, e.2.1, e.2.2, copyRectBytes bpl m e.2.1))
        dirty := clampRect (rec.dirtyUnion.getD ⟨0, 0, w, h⟩) w h }

/-- `MaskTilesUndoCommand._apply(which)` on the mask bytes: write every
tile's "before" (`useBefore = true`, i.e. `undo()`) or "after"
(`useBefore = false`, i.e. `redo()`) byte array back; a length mismatch
raises (`none`). -/
def cmdApply (bpl : Int) (useBefore : Bool) (cmd : Cmd) (m : Mem) : Option Mem :=
  cmd.tiles.foldlM (fun mm e =>
    writeRectBytes bpl mm e.2.1 (if useBefore then e.2.2.1 else e.2.2.2)) m

/-- One recorded stroke: per segment, `_apply_stroke_segment` first calls
`capture_before_for_rect` with the segment's padded rect and then applies
the segment's dabs to the mask; `runStroke` folds that over the segments. -/
def runStroke (tsz bpl w h : Int) (steps : List (QRect × (Mem → Mem)))
    (init : RecSt × Mem) : RecSt × Mem :=
  steps.foldl (fun st s =>
    (captureBeforeForRect tsz bpl st.2 st.1 s.1 w h, s.2 st.2)) init

theorem tileRect_wf (tsz tx ty w h : Int) (hw : 0 ≤ w) :
    0 ≤ (tileRect tsz tx ty w h).left ∧
      (tileRect tsz tx ty w h).left + (tileRect tsz tx ty w h).width ≤ w := by
  unfold tileRect clampRect QRect.intersected QRect.right QRect.bottom
  split
  all_goals dsimp only
  · omega
  · omega

/-- A pixel of a clamped grid tile determines the tile key. -/
theorem tileRect_contains_key (tsz : Int) (ht : 0 < tsz) (tx ty w h px py : Int)
    (hc : (tileRect tsz tx ty w h).contains px py) :
    px / tsz = tx ∧ py / tsz = ty := by
  rw [tileRect, contains_clampRect] at hc
  unfold QRect.contains QRect.right QRect.bottom at hc
  obtain ⟨⟨h1, h2, h3, h4⟩, _⟩ := hc
  dsimp only at h1 h2 h3 h4
  constructor
  · have hx1 : tx ≤ px / tsz := Int.le_ediv_iff_mul_le ht |>.2 (by omega)
    have hx2 : px / tsz < tx + 1 := Int.ediv_lt_iff_lt_mul ht |>.2 (by nlinarith)
    omega
  · have hy1 : ty ≤ py / tsz := Int.le_ediv_iff_mul_le ht |>.2 (by omega)
    have hy2 : py / tsz < ty + 1 := Int.ediv_lt_iff_lt_mul ht |>.2 (by nlinarith)
    omega

/-- Distinct grid tiles cover disjoint flat offsets. -/
theorem tileRect_disjoint (tsz bpl : Int) (ht : 0 < tsz) (tx ty tx' ty' w h : Int)
    (hne : (tx, ty) ≠ (tx', ty')) (j : Int) :
    ¬ (posInRect bpl (tileRect tsz tx ty w h) j ∧
        posInRect bpl (tileRect tsz tx' ty' w h) j) := by
  rintro ⟨h1, h2⟩
  unfold posInRect at h1 h2
  have k1 := tileRect_contains_key tsz ht tx ty w h _ _ h1
  have k2 := tileRect_contains_key tsz ht tx' ty' w h _ _ h2
  apply hne
  rw [Prod.ext_iff]
  constructor <;> omega

theorem clampRect_of_isEmpty {rect : QRect} {w h : Int}
    (he : (clampRect rect w h).isEmpty) : clampRect rect w h = ⟨0, 0, 0, 0⟩ := by
  unfold clampRect QRect.intersected at he ⊢
  split at he
  case isTrue hcond =>
    exfalso
    simp only [QRect.isEmpty, QRect.right, QRect.bottom] at he hcond
    omega
  case isFalse hcond =>
    rw [if_neg hcond]

theorem tileKeysOf_null (tsz : Int) (ht : 0 < tsz) :
    tileKeysOf tsz ⟨0, 0, 0, 0⟩ = [] := by
  have hneg : (0 + 0 - 1 : Int) / tsz = -1 := by
    have h1 : ((-1 : Int) * tsz + (tsz - 1)) / tsz = -1 :=
      ediv_flat (-1) (by omega) (by omega)
    rw [show (-1 : Int) * tsz + (tsz - 1) = 0 + 0 - 1 by ring] at h1
    exact h1
  unfold tileKeysOf QRect.bottom
  dsimp only
  rw [hneg, show (0 : Int) / tsz = 0 from Int.zero_ediv tsz,
    intRange_eq_nil (by omega)]
  rfl

theorem flatMap_congr_mem {α β : Type} (l : List α) (f g : α → List β)
    (h : ∀ a ∈ l, f a = g a) : l.flatMap f = l.flatMap g := by
  induction l with
  | nil => rfl
  | cons a t ih =>
    rw [List.flatMap_cons, List.flatMap_cons, h a (List.mem_cons_self a t),
      ih (fun x hx => h x (List.mem_cons_of_mem _ hx))]

/-- The packed copy of a rectangle only reads bytes at the rectangle's
positions. -/
theorem copyRectBytes_congr (bpl : Int) (m m' : Mem) (rect : QRect)
    (hL : 0 ≤ rect.left) (hR : rect.left + rect.width ≤ bpl)
    (hag : ∀ j, posInRect bpl rect j → m j = m' j) :
    copyRectBytes bpl m rect = copyRectBytes bpl m' rect := by
  unfold copyRectBytes memSlice
  apply flatMap_congr_mem
  intro ry hry
  rw [List.mem_range] at hry
  apply List.map_congr_left
  intro k hk
  rw [List.mem_range] at hk
  apply hag
  have hrc := row_cover_decode bpl rect hL hR ry (rowStart bpl rect ry + (k : Int))
    (by omega) (by omega)
  obtain ⟨hdv, hm1, hm2⟩ := hrc
  unfold posInRect QRect.contains QRect.right QRect.bottom
  refine ⟨hm1, by omega, ?_, ?_⟩
  · rw [hdv]; omega
  · rw [hdv]; omega

theorem lookup_isSome_iff {β : Type} (ts : List ((Int × Int) × β)) (key : Int × Int) :
    (ts.lookup key).isSome ↔ ∃ e ∈ ts, e.1 = key := by
  induction ts with
  | nil => simp
  | cons e t ih =>
    obtain ⟨k, b⟩ := e
    by_cases hk : k = key
    · subst hk
      simp [List.lookup_cons]
    · have hbeq : (key == k) = false := beq_eq_false_iff_ne.2 (fun hkk => hk hkk.symm)
      rw [List.lookup_cons]
      simp only [hbeq]
      rw [ih]
      constructor
      · rintro ⟨e, he, rfl⟩
        exact ⟨e, List.mem_cons_of_mem _ he, rfl⟩
      · rintro ⟨e, he, rfl⟩
        rcases List.mem_cons.1 he with rfl | he'
        · exact absurd rfl hk
        · exact ⟨e, he', rfl⟩

/-- Outstanding recorder invariant during one recorded stroke, relative to
the pre-stroke mask `m0`: captured tile keys are unique, every captured
entry stores its clamped tile rectangle together with the tile's
*pre-stroke* bytes, and the mask differs from `m0` only inside captured
tiles. -/
def StrokeInv (tsz bpl w h : Int) (m0 : Mem) (rec : RecSt) (m : Mem) : Prop :=
  ((rec.tiles.map (fun e => e.1)).Nodup) ∧
  (∀ e ∈ rec.tiles, e.2.1 = tileRect tsz e.1.1 e.1.2 w h ∧
      e.2.2 = copyRectBytes bpl m0 e.2.1) ∧
  (∀ j : Int, m j ≠ m0 j → ∃ e ∈ rec.tiles, posInRect bpl e.2.1 j)

theorem capture_fold_spec (tsz bpl w h : Int) (m0 m : Mem) (ht : 0 < tsz)
    (hw : 0 ≤ w) (hwb : w ≤ bpl) (keys : List (Int × Int)) :
    ∀ ts : List ((Int × Int) × QRect × List Nat),
      (ts.map (fun e => e.1)).Nodup →
      (∀ e ∈ ts, e.2.1 = tileRect tsz e.1.1 e.1.2 w h ∧
        e.2.2 = copyRectBytes bpl m0 e.2.1) →
      (∀ j, m j ≠ m0 j → ∃ e ∈ ts, posInRect bpl e.2.1 j) →
      (((keys.foldl (capStep tsz bpl w h m) ts).map (fun e => e.1)).Nodup) ∧
      (∀ e ∈ keys.foldl (capStep tsz bpl w h m) ts,
        e.2.1 = tileRect tsz e.1.1 e.1.2 w h ∧ e.2.2 = copyRectBytes bpl m0 e.2.1) ∧
      (∀ e ∈ ts, e ∈ keys.foldl (capStep tsz bpl w h m) ts) ∧
      (∀ key ∈ keys, ∃ e ∈ keys.foldl (capStep tsz bpl w h m) ts, e.1 = key) := by
  induction keys with
  | nil =>
    intro ts hnd hwf hmod
    exact ⟨hnd, hwf, fun e he => he, by simp⟩
  | cons key kt ih =>
    intro ts hnd hwf hmod
    rw [List.foldl_cons]
    by_cases hlk : (ts.lookup key).isSome
    · have hstep : capStep tsz bpl w h m ts key = ts := by
        unfold capStep
        rw [if_pos hlk]
      rw [hstep]
      obtain ⟨a1, a2, a3, a4⟩ := ih ts hnd hwf hmod
      refine ⟨a1, a2, a3, ?_⟩
      intro key' hk'
      rcases List.mem_cons.1 hk' with rfl | hk''
      · obtain ⟨e, he, hek⟩ := (lookup_isSome_iff ts key').1 hlk
        exact ⟨e, a3 e he, hek⟩
      · exact a4 key' hk''
    · have hnotin : ∀ e ∈ ts, e.1 ≠ key := by
        intro e he hek
        exact hlk ((lookup_isSome_iff ts key).2 ⟨e, he, hek⟩)
      have hstep : capStep tsz bpl w h m ts key =
          ts ++ [(key, tileRect tsz key.1 key.2 w h,
            copyRectBytes bpl m (tileRect tsz key.1 key.2 w h))] := by
        unfold capStep
        rw [if_neg hlk]
      rw [hstep]
      have htw := tileRect_wf tsz key.1 key.2 w h hw
      -- the newly captured tile still holds its pre-stroke bytes
      have hagree : copyRectBytes bpl m (tileRect tsz key.1 key.2 w h) =
          copyRectBytes bpl m0 (tileRect tsz key.1 key.2 w h) := by
        apply copyRectBytes_congr bpl m m0 _ htw.1 (by omega)
        intro j hpos
        by_contra hne
        obtain ⟨e, he, hpe⟩ := hmod j hne
        have hrect := (hwf e he).1
        have := tileRect_disjoint tsz bpl ht e.1.1 e.1.2 key.1 key.2 w h
          (by
            intro hcontra
            exact hnotin e he (by
              rw [Prod.ext_iff] at hcontra ⊢
              exact hcontra))
          j
        rw [← hrect] at this
        exact this ⟨hpe, hpos⟩
      have hnd1 : (((ts ++ [(key, tileRect tsz key.1 key.2 w h,
          copyRectBytes bpl m (tileRect tsz key.1 key.2 w h))]).map
            (fun e => e.1)).Nodup) := by
        rw [List.map_append]
        rw [List.nodup_append]
        refine ⟨hnd, List.nodup_singleton _, ?_⟩
        intro k1 hk1 hk2
        simp only [List.map_cons, List.map_nil, List.mem_singleton] at hk2
        subst hk2
        obtain ⟨e, he, hek⟩ := List.mem_map.1 hk1
        exact hnotin e he hek
      have hwf1 : ∀ e ∈ ts ++ [(key, tileRect tsz key.1 key.2 w h,
          copyRectBytes bpl m (tileRect tsz key.1 key.2 w h))],
          e.2.1 = tileRect tsz e.1.1 e.1.2 w h ∧
            e.2.2 = copyRectBytes bpl m0 e.2.1 := by
        intro e he
        rcases List.mem_append.1 he with he' | he'
        · exact hwf e he'
        · rw [List.mem_singleton] at he'
          subst he'
          exact ⟨rfl, hagree⟩
      have hmod1 : ∀ j, m j ≠ m0 j → ∃ e ∈ ts ++ [(key, tileRect tsz key.1 key.2 w h,
          copyRectBytes bpl m (tileRect tsz key.1 key.2 w h))], posInRect bpl e.2.1 j := by
        intro j hne
        obtain ⟨e, he, hpe⟩ := hmod j hne
        exact ⟨e, List.mem_append_left _ he, hpe⟩
      obtain ⟨a1, a2, a3, a4⟩ := ih _ hnd1 hwf1 hmod1
      refine ⟨a1, a2, ?_, ?_⟩
      · intro e he
        exact a3 e (List.mem_append_left _ he)
      · intro key' hk'
        rcases List.mem_cons.1 hk' with rfl | hk''
        · refine ⟨(key', tileRect tsz key'.1 key'.2 w h,
            copyRectBytes bpl m (tileRect tsz key'.1 key'.2 w h)), ?_, rfl⟩
          exact a3 _ (List.mem_append_right _ (List.mem_singleton.2 rfl))
        · exact a4 key' hk''

theorem capture_inv (tsz bpl w h : Int) (ht : 0 < tsz) (hw : 0 ≤ w) (hwb : w ≤ bpl)
    (m0 m : Mem) (rec : RecSt) (rect : QRect)
    (hinv : StrokeInv tsz bpl w h m0 rec m) :
    StrokeInv tsz bpl w h m0 (captureBeforeForRect tsz bpl m rec rect w h) m ∧
    (∀ key ∈ tileKeysOf tsz (clampRect rect w h),
      ∃ e ∈ (captureBeforeForRect tsz bpl m rec rect w h).tiles, e.1 = key) ∧
    (captureBeforeForRect tsz bpl m rec rect w h).layerId = rec.layerId := by
  obtain ⟨h1, h2, h3⟩ := hinv
  unfold captureBeforeForRect
  by_cases hemp : (clampRect rect w h).isEmpty
  · rw [if_pos hemp]
    refine ⟨⟨h1, h2, h3⟩, ?_, rfl⟩
    rw [clampRect_of_isEmpty hemp, tileKeysOf_null tsz ht]
    simp
  · rw [if_neg hemp]
    obtain ⟨a1, a2, a3, a4⟩ := capture_fold_spec tsz bpl w h m0 m ht hw hwb
      (tileKeysOf tsz (clampRect rect w h)) rec.tiles h1 h2 h3
    refine ⟨⟨a1, a2, ?_⟩, a4, rfl⟩
    intro j hne
    obtain ⟨e, he, hpe⟩ := h3 j hne
    exact ⟨e, a3 e he, hpe⟩

theorem runStroke_inv (tsz bpl w h : Int) (ht : 0 < tsz) (hw : 0 ≤ w) (hwb : w ≤ bpl)
    (m0 : Mem) (steps : List (QRect × (Mem → Mem)))
    (hcover : ∀ s ∈ steps, ∀ (m : Mem) (j : Int), s.2 m j ≠ m j →
      ∃ key ∈ tileKeysOf tsz (clampRect s.1 w h),
        posInRect bpl (tileRect tsz key.1 key.2 w h) j) :
    ∀ (rec : RecSt) (m : Mem), StrokeInv tsz bpl w h m0 rec m →
      StrokeInv tsz bpl w h m0 (runStroke tsz bpl w h steps (rec, m)).1
        (runStroke tsz bpl w h steps (rec, m)).2 ∧
      (runStroke tsz bpl w h steps (rec, m)).1.layerId = rec.layerId := by
  induction steps with
  | nil =>
    intro rec m hinv
    exact ⟨hinv, rfl⟩
  | cons s st ih =>
    intro rec m hinv
    obtain ⟨cinv, ckeys, clid⟩ := capture_inv tsz bpl w h ht hw hwb m0 m rec s.1 hinv
    have hinv' : StrokeInv tsz bpl w h m0
        (captureBeforeForRect tsz bpl m rec s.1 w h) (s.2 m) := by
      obtain ⟨b1, b2, b3⟩ := cinv
      refine ⟨b1, b2, ?_⟩
      intro j hne
      by_cases hfix : s.2 m j = m j
      · exact b3 j (by rw [← hfix]; exact hne)
      · obtain ⟨key, hkmem, hkpos⟩ := hcover s (List.mem_cons_self s st) m j hfix
        obtain ⟨e, he, hek⟩ := ckeys key hkmem
        refine ⟨e, he, ?_⟩
        rw [(b2 e he).1, hek]
        exact hkpos
    have hcons : runStroke tsz bpl w h (s :: st) (rec, m) =
        runStroke tsz bpl w h st
          (captureBeforeForRect tsz bpl m rec s.1 w h, s.2 m) := rfl
    rw [hcons]
    have hrun := ih (fun s' hs' => hcover s' (List.mem_cons_of_mem _ hs')) _ _ hinv'
    exact ⟨hrun.1, by rw [hrun.2, clid]⟩

/-- Writing back per-tile byte arrays that are packed copies of `src` over
pairwise-disjoint rectangles succeeds and produces `src` on the tiles and
the starting buffer elsewhere. -/
theorem tiles_write_spec (bpl : Int) (src : Mem)
    (g : ((Int × Int) × QRect × List Nat × List Nat) → List Nat) :
    ∀ tiles : List ((Int × Int) × QRect × List Nat × List Nat),
      (∀ e ∈ tiles, 0 ≤ e.2.1.left ∧ e.2.1.left + e.2.1.width ≤ bpl) →
      0 < bpl →
      tiles.Pairwise (fun e e' => ∀ j : Int,
        ¬ (posInRect bpl e.2.1 j ∧ posInRect bpl e'.2.1 j)) →
      (∀ e ∈ tiles, g e = copyRectBytes bpl src e.2.1) →
      ∀ m : Mem, ∃ m',
        (tiles.foldlM (fun mm e => writeRectBytes bpl mm e.2.1 (g e)) m) = some m' ∧
        (∀ j : Int, (∃ e ∈ tiles, posInRect bpl e.2.1 j) → m' j = src j) ∧
        (∀ j : Int, (∀ e ∈ tiles, ¬ posInRect bpl e.2.1 j) → m' j = m j) := by
  intro tiles
  induction tiles with
  | nil =>
    intro _ _ _ _ m
    refine ⟨m, rfl, ?_, ?_⟩
    · rintro j ⟨e, he, _⟩
      cases he
    · intro j _
      rfl
  | cons e t ih =>
    intro hwf hb hpw hdata m
    obtain ⟨m1, hm1, hm1p⟩ := writeRectBytes_copy bpl src m e.2.1
      (hwf e (List.mem_cons_self e t)).1 (hwf e (List.mem_cons_self e t)).2 hb
    rw [← hdata e (List.mem_cons_self e t)] at hm1
    obtain ⟨hehd, hetl⟩ := List.pairwise_cons.1 hpw
    obtain ⟨m', hm', hp1, hp2⟩ := ih (fun e' he' => hwf e' (List.mem_cons_of_mem _ he'))
      hb hetl (fun e' he' => hdata e' (List.mem_cons_of_mem _ he')) m1
    refine ⟨m', ?_, ?_, ?_⟩
    · rw [List.foldlM_cons, hm1]
      exact hm'
    · rintro j ⟨e', he', hpe'⟩
      rcases List.mem_cons.1 he' with rfl | he''
      · have hrest : ∀ e2 ∈ t, ¬ posInRect bpl e2.2.1 j := by
          intro e2 he2 hpe2
          exact hehd e2 he2 j ⟨hpe', hpe2⟩
        rw [hp2 j hrest, hm1p j,
          if_pos (show e'.2.1.contains (j % bpl) (j / bpl) from hpe')]
      · exact hp1 j ⟨e', he'', hpe'⟩
    · intro j hnone
      rw [hp2 j (fun e2 he2 => hnone e2 (List.mem_cons_of_mem _ he2)), hm1p j,
        if_neg (show ¬ e.2.1.contains (j % bpl) (j / bpl) from
          hnone e (List.mem_cons_self e t))]

/-- Claim C1: for a single stroke of paint/erase dabs on a layer with the
tile recorder active (recording begun at stroke start, each segment's dabs
writing only inside the tiles captured from its segment rect before the
dabs run), if `build_command()` returns a command, then that command's
`undo()` (writing every tile's "before" bytes) restores the mask
byte-for-byte to its exact pre-stroke state, and a subsequent `redo()`
(writing the "after" bytes) restores it byte-for-byte to the post-stroke
state, regardless of how many tiles were touched. -/
theorem stroke_undo_redo
    (tsz bpl w h : Int) (ht : 0 < tsz) (hw : 0 < w) (hwb : w ≤ bpl)
    (lid : String) (steps : List (QRect × (Mem → Mem))) (m0 : Mem)
    (hcover : ∀ s ∈ steps, ∀ (m : Mem) (j : Int), s.2 m j ≠ m j →
      ∃ key ∈ tileKeysOf tsz (clampRect s.1 w h),
        posInRect bpl (tileRect tsz key.1 key.2 w h) j)
    (cmd : Cmd)
    (hcmd : buildCommand bpl (runStroke tsz bpl w h steps (recBegin lid, m0)).1
        (runStroke tsz bpl w h steps (recBegin lid, m0)).2 w h = some cmd) :
    ∃ mu, cmdApply bpl true cmd
        (runStroke tsz bpl w h steps (recBegin lid, m0)).2 = some mu ∧
      (∀ j : Int, mu j = m0 j) ∧
      ∃ mr, cmdApply bpl false cmd mu = some mr ∧
        ∀ j : Int, mr j = (runStroke tsz bpl w h steps (recBegin lid, m0)).2 j := by
  have hbpl : (0 : Int) < bpl := by omega
  have hbase : StrokeInv tsz bpl w h m0 (recBegin lid) m0 := by
    refine ⟨?_, ?_, ?_⟩
    · simp [recBegin]
    · intro e he
      simp [recBegin] at he
    · intro j hne
      exact absurd rfl hne
  obtain ⟨hinv, hlid⟩ := runStroke_inv tsz bpl w h ht (by omega) hwb m0 steps hcover
    (recBegin lid) m0 hbase
  generalize hgen : runStroke tsz bpl w h steps (recBegin lid, m0) = rs at hcmd hinv hlid ⊢
  obtain ⟨hnd, hwfE, hmod⟩ := hinv
  -- invert build_command
  unfold buildCommand at hcmd
  split at hcmd
  case h_1 => exact Option.noConfusion hcmd
  case h_2 lid' hlid' =>
  split at hcmd
  case isTrue => exact Option.noConfusion hcmd
  case isFalse hne0 =>
  split at hcmd
  case isTrue => exact Option.noConfusion hcmd
  case isFalse hchanged =>
  have hceq := Option.some.inj hcmd
  subst hceq
  -- properties of the command's tile list
  have hpair_keys : rs.1.tiles.Pairwise (fun a b => a.1 ≠ b.1) :=
    List.pairwise_map.1 hnd
  have hdisj : rs.1.tiles.Pairwise (fun a b => ∀ j : Int,
      ¬ (posInRect bpl a.2.1 j ∧ posInRect bpl b.2.1 j)) := by
    refine List.Pairwise.imp_of_mem ?_ hpair_keys
    intro a b ha hb hne j
    have hra := (hwfE a ha).1
    have hrb := (hwfE b hb).1
    intro hj
    rw [hra, hrb] at hj
    exact tileRect_disjoint tsz bpl ht a.1.1 a.1.2 b.1.1 b.1.2 w h hne j hj
  have hwf' : ∀ e ∈ rs.1.tiles.map (fun e =>
        (e.1, e.2.1, e.2.2, copyRectBytes bpl rs.2 e.2.1)),
      0 ≤ e.2.1.left ∧ e.2.1.left + e.2.1.width ≤ bpl := by
    intro e he
    obtain ⟨a, ha, rfl⟩ := List.mem_map.1 he
    have hra := (hwfE a ha).1
    have := tileRect_wf tsz a.1.1 a.1.2 w h (by omega)
    rw [hra]
    omega
  have hpw' : (rs.1.tiles.map (fun e =>
        (e.1, e.2.1, e.2.2, copyRectBytes bpl rs.2 e.2.1))).Pairwise
      (fun e e' => ∀ j : Int, ¬ (posInRect bpl e.2.1 j ∧ posInRect bpl e'.2.1 j)) := by
    rw [List.pairwise_map]
    exact hdisj
  have hcov_iff : ∀ j : Int,
      (∃ e ∈ rs.1.tiles.map (fun e => (e.1, e.2.1, e.2.2, copyRectBytes bpl rs.2 e.2.1)),
        posInRect bpl e.2.1 j) ↔ (∃ e ∈ rs.1.tiles, posInRect bpl e.2.1 j) := by
    intro j
    constructor
    · rintro ⟨e, he, hpe⟩
      obtain ⟨a, ha, rfl⟩ := List.mem_map.1 he
      exact ⟨a, ha, hpe⟩
    · rintro ⟨a, ha, hpa⟩
      exact ⟨_, List.mem_map_of_mem _ ha, hpa⟩
  -- undo writes every tile's pre-stroke bytes back
  obtain ⟨mu, hmu, hu1, hu2⟩ := tiles_write_spec bpl m0 (fun e => e.2.2.1)
    (rs.1.tiles.map (fun e => (e.1, e.2.1, e.2.2, copyRectBytes bpl rs.2 e.2.1)))
    hwf' hbpl hpw'
    (by
      intro e he
      obtain ⟨a, ha, rfl⟩ := List.mem_map.1 he
      exact (hwfE a ha).2)
    rs.2
  have hmu_eq : ∀ j : Int, mu j = m0 j := by
    intro j
    by_cases hcj : ∃ e ∈ rs.1.tiles, posInRect bpl e.2.1 j
    · exact hu1 j ((hcov_iff j).2 hcj)
    · have h1 := hu2 j (by
        intro e he hpe
        exact hcj ((hcov_iff j).1 ⟨e, he, hpe⟩))
      rw [h1]
      by_contra hne
      exact hcj (hmod j hne)
  obtain ⟨mr, hmr, hr1, hr2⟩ := tiles_write_spec bpl rs.2 (fun e => e.2.2.2)
    (rs.1.tiles.map (fun e => (e.1, e.2.1, e.2.2, copyRectBytes bpl rs.2 e.2.1)))
    hwf' hbpl hpw'
    (by
      intro e he
      obtain ⟨a, ha, rfl⟩ := List.mem_map.1 he
      rfl)
    mu
  refine ⟨mu, ?_, hmu_eq, mr, ?_, ?_⟩
  · simpa [cmdApply] using hmu
  · simpa [cmdApply] using hmr
  · intro j
    by_cases hcj : ∃ e ∈ rs.1.tiles, posInRect bpl e.2.1 j
    · exact hr1 j ((hcov_iff j).2 hcj)
    · have h1 := hr2 j (by
        intro e he hpe
        exact hcj ((hcov_iff j).1 ⟨e, he, hpe⟩))
      rw [h1, hmu_eq j]
      by_contra hne
      exact hcj (hmod j (fun hfix => hne hfix.symm))

theorem stroke_undo_redo_witness :
    ∃ mu, cmdApply 4 true
        ⟨"L", [((0, 0), ⟨0, 0, 4, 4⟩,
          [0, 0, 0, 0, 0, 0, 0, 0, 0, 0, 0, 0, 0, 0, 0, 0],
          [0, 0, 0, 0, 0, 7, 0, 0, 0, 0, 0, 0, 0, 0, 0, 0])], ⟨0, 0, 4, 4⟩⟩
        (runStroke 128 4 4 4 [(⟨0, 0, 4, 4⟩, fun m => upd m 5 7)]
          (recBegin "L", fun _ => 0)).2 = some mu ∧
      (∀ j : Int, mu j = 0) ∧
      ∃ mr, cmdApply 4 false
          ⟨"L", [((0, 0), ⟨0, 0, 4, 4⟩,
            [0, 0, 0, 0, 0, 0, 0, 0, 0, 0, 0, 0, 0, 0, 0, 0],
            [0, 0, 0, 0, 0, 7, 0, 0, 0, 0, 0, 0, 0, 0, 0, 0])], ⟨0, 0, 4, 4⟩⟩ mu =
          some mr ∧
        ∀ j : Int, mr j = (runStroke 128 4 4 4 [(⟨0, 0, 4, 4⟩, fun m => upd m 5 7)]
          (recBegin "L", fun _ => 0)).2 j :=
  stroke_undo_redo 128 4 4 4 (by decide) (by decide) (by decide) "L"
    [(⟨0, 0, 4, 4⟩, fun m => upd m 5 7)] (fun _ => 0)
    (by
      intro s hs m j hne
      rw [List.mem_singleton] at hs
      subst hs
      have hj : j = 5 := by
        by_contra hj5
        exact hne (if_neg hj5)
      subst hj
      exact ⟨(0, 0), by decide, by decide⟩)
    ⟨"L", [((0, 0), ⟨0, 0, 4, 4⟩,
      [0, 0, 0, 0, 0, 0, 0, 0, 0, 0, 0, 0, 0, 0, 0, 0],
      [0, 0, 0, 0, 0, 7, 0, 0, 0, 0, 0, 0, 0, 0, 0, 0])], ⟨0, 0, 4, 4⟩⟩
    (by rfl)

/-- Claim C8: for a recording stroke, `build_command()` re-reads the current
bytes of every captured tile as its "after" snapshot; it returns nothing
when no captured tile's current bytes differ from its "before" bytes (so a
no-op stroke produces no undo entry), and when some tile did change it
returns a command holding, per captured tile, its rect with the before and
re-read after byte arrays, plus the clamped union of all dirty rects seen
(the full image rect when none was recorded); it also returns nothing when
the recorder is not active. -/
theorem build_command_spec (bpl w h : Int) (rec : RecSt) (m : Mem) :
    ((∀ e ∈ rec.tiles, copyRectBytes bpl m e.2.1 = e.2.2) →
      buildCommand bpl rec m w h = none) ∧
    (∀ lid : String, rec.layerId = some lid →
      (∃ e ∈ rec.tiles, copyRectBytes bpl m e.2.1 ≠ e.2.2) →
      buildCommand bpl rec m w h = some
        { layerId := lid
          tiles := rec.tiles.map (fun e => (e.1, e.2.1, e.2.2, copyRectBytes bpl m e.2.1))
          dirty := clampRect (rec.dirtyUnion.getD ⟨0, 0, w, h⟩) w h }) ∧
    (rec.layerId = none → buildCommand bpl rec m w h = none) := by
  refine ⟨?_, ?_, ?_⟩
  · intro hall
    unfold buildCommand
    cases hl : rec.layerId with
    | none => rfl
    | some lid =>
      dsimp only
      by_cases hemp : rec.tiles.isEmpty
      · rw [if_pos hemp]
      · rw [if_neg hemp, if_pos]
        rw [List.all_eq_true]
        intro e he
        exact beq_iff_eq.2 (hall e he)
  · intro lid hl hch
    unfold buildCommand
    rw [hl]
    dsimp only
    obtain ⟨e0, he0, hne0⟩ := hch
    have hemp : ¬ rec.tiles.isEmpty = true := by
      rw [List.isEmpty_iff]
      intro hnil
      rw [hnil] at he0
      cases he0
    rw [if_neg hemp, if_neg]
    rw [List.all_eq_true]
    intro hall
    exact hne0 (beq_iff_eq.1 (hall e0 he0))
  · intro hl
    unfold buildCommand
    rw [hl]

theorem build_command_spec_witness :
    buildCommand 2 ⟨some "L", [((0, 0), ⟨0, 0, 2, 1⟩, [0, 0])], some ⟨0, 0, 2, 1⟩⟩
      (fun _ => 0) 2 1 = none ∧
    buildCommand 2 ⟨some "L", [((0, 0), ⟨0, 0, 2, 1⟩, [5, 5])], some ⟨0, 0, 2, 1⟩⟩
      (fun _ => 0) 2 1 =
      some ⟨"L", [((0, 0), ⟨0, 0, 2, 1⟩, [5, 5], [0, 0])], ⟨0, 0, 2, 1⟩⟩ :=
  ⟨(build_command_spec 2 2 1
      ⟨some "L", [((0, 0), ⟨0, 0, 2, 1⟩, [0, 0])], some ⟨0, 0, 2, 1⟩⟩ (fun _ => 0)).1
      (by decide),
    (build_command_spec 2 2 1
      ⟨some "L", [((0, 0), ⟨0, 0, 2, 1⟩, [5, 5])], some ⟨0, 0, 2, 1⟩⟩ (fun _ => 0)).2.1
      "L" rfl (by decide)⟩

/-! ### Data model and mask store

Mirrors the dataclasses `Category`, `Entity`, `Layer`, `Project` and the
runtime mask cache of the source (the open-ended `props` bag of `Entity`
and its float coordinates are modelled with rationals; runtime-only fields
`mask_index_img` / `_lut_rgba` become `Option` fields).  PNG decoding
(`png_base64_to_qimage` plus `convertToFormat(Grayscale8)`) is external
Qt code and enters the model as an abstract `decode` function returning
`none` for an image that `isNull()`. -/

structure Category where
  id : String
  name : String
  color : Nat × Nat × Nat × Nat
  index : Nat
deriving DecidableEq

structure Entity where
  id : String
  name : String
  categoryId : Option String
  x : Rat
  y : Rat
deriving DecidableEq

/-- A Grayscale8 QImage: dimensions, row stride (`bytesPerLine`), bytes. -/
structure MaskImage where
  width : Int
  height : Int
  bpl : Int
  data : Mem

structure Layer where
  id : String
  name : String
  categories : List Category
  entities : List Entity
  maskPngB64 : Option String
  maskImg : Option MaskImage
  lut : Option (List (Nat × Nat × Nat × Nat))

structure Project where
  imagePath : Option String
  imageWidth : Int
  imageHeight : Int
  layers : List Layer

inductive Tool where
  | pan
  | probe
  | brush
  | erase
  | entityPoint
deriving DecidableEq

/-- The `AppState` fields the modelled operations read, plus the stroke
state of `PixTagMainWindow` (`_stroke_rec`, `_stroke_active`,
`_stroke_last`). -/
structure AppSt where
  project : Project
  currentLayerId : Option String
  currentCategoryId : Option String
  currentEntityId : Option String
  toolMode : Tool
  brushRadius : Int
  probeRadius : Int
  eraseRadius : Int
  eraseMode : EraseMode
  strokeRec : RecSt
  strokeActive : Bool
  strokeLast : Option (Int × Int)

/-- `EditService.current_layer` / `PixTagMainWindow.current_layer`: first
layer whose id equals the current layer id. -/
def currentLayer (st : AppSt) : Option Layer :=
  st.project.layers.find? (fun l => st.currentLayerId == some l.id)

/-- `QImage(w, h, Format_Grayscale8)` followed by `fill(0)`: a blank
all-zero mask (the row stride is modelled as exactly `w`). -/
def blankMask (w h : Int) : MaskImage := ⟨w, h, w, fun _ => 0⟩

/-- Fallback path of `MaskStore.ensure_layer_index_mask` after the cached
image was absent or mismatched: try the persisted base64 PNG, else install
a blank mask of the current dimensions. -/
def ensureFresh (decode : String → Option MaskImage) (w h : Int) (layer : Layer) :
    MaskImage × Layer :=
  match layer.maskPngB64 with
  | some s =>
    match decode s with
    | some loaded =>
      if loaded.width = w ∧ loaded.height = h then
        (loaded, { layer with maskImg := some loaded })
      else (blankMask w h, { layer with maskImg := some (blankMask w h) })
    | none => (blankMask w h, { layer with maskImg := some (blankMask w h) })
  | none => (blankMask w h, { layer with maskImg := some (blankMask w h) })

/-- `MaskStore.ensure_layer_index_mask(layer)`: return the cached runtime
mask when it matches the current project dimensions, otherwise decode the
persisted form or fall back to a blank mask (installing the result). -/
def ensureLayerIndexMask (decode : String → Option MaskImage) (w h : Int)
    (layer : Layer) : MaskImage × Layer :=
  match layer.maskImg with
  | some img =>
    if img.width = w ∧ img.height = h then (img, layer)
    else ensureFresh decode w h layer
  | none => ensureFresh decode w h layer

/-- Python mutates the layer object in place; the model replaces the layer
with the same id inside the project's layer list. -/
def setLayer (p : Project) (l : Layer) : Project :=
  { p with layers := p.layers.map (fun x => if x.id = l.id then l else x) }

theorem find?_setLayer (p : Project) (cid : Option String) (layer newl : Layer)
    (hfind : p.layers.find? (fun l => cid == some l.id) = some layer)
    (hid : newl.id = layer.id) :
    (setLayer p newl).layers.find? (fun l => cid == some l.id) = some newl := by
  unfold setLayer
  dsimp only
  rw [List.find?_map]
  have hfun : ((fun l => cid == some l.id) ∘ (fun x => if x.id = newl.id then newl else x)) =
      (fun l : Layer => cid == some l.id) := by
    funext x
    by_cases hx : x.id = newl.id
    · simp only [Function.comp]
      rw [if_pos hx, hx]
    · simp only [Function.comp]
      rw [if_neg hx]
  rw [hfun, hfind]
  have hif : (if layer.id = newl.id then newl else layer) = newl := if_pos hid.symm
  rw [Option.map_some', hif]

theorem ensureFresh_spec (decode : String → Option MaskImage) (w h : Int) (layer : Layer) :
    ((ensureFresh decode w h layer).1.width = w ∧
      (ensureFresh decode w h layer).1.height = h) ∧
    (∀ s, layer.maskPngB64 = some s →
      (decode s = none ∨ ∃ d, decode s = some d ∧ ¬ (d.width = w ∧ d.height = h)) →
      ensureFresh decode w h layer =
        (blankMask w h, { layer with maskImg := some (blankMask w h) })) ∧
    (∀ s d, layer.maskPngB64 = some s → decode s = some d → d.width = w → d.height = h →
      ensureFresh decode w h layer = (d, { layer with maskImg := some d })) ∧
    (layer.maskPngB64 = none → ensureFresh decode w h layer =
      (blankMask w h, { layer with maskImg := some (blankMask w h) })) := by
  refine ⟨?_, ?_, ?_, ?_⟩
  · unfold ensureFresh
    cases hpng : layer.maskPngB64 with
    | none => exact ⟨rfl, rfl⟩
    | some s =>
      dsimp only
      cases hdec : decode s with
      | none => exact ⟨rfl, rfl⟩
      | some d =>
        dsimp only
        by_cases hdim : d.width = w ∧ d.height = h
        · rw [if_pos hdim]
          exact ⟨hdim.1, hdim.2⟩
        · rw [if_neg hdim]
          exact ⟨rfl, rfl⟩
  · intro s hs hbad
    unfold ensureFresh
    rw [hs]
    dsimp only
    rcases hbad with hnone | ⟨d, hd, hdim⟩
    · rw [hnone]
    · rw [hd]
      dsimp only
      rw [if_neg hdim]
  · intro s d hs hd hdw hdh
    unfold ensureFresh
    rw [hs]
    dsimp only
    rw [hd]
    dsimp only
    rw [if_pos ⟨hdw, hdh⟩]
  · intro hnone
    unfold ensureFresh
    rw [hnone]

/-- Claim C6: obtaining a layer's index mask always yields a mask whose
dimensions equal the current project image dimensions; a cached mask of
matching dimensions is returned as-is; with no valid cache, a decoded
persisted mask of matching dimensions is installed and returned as-is; and
if the persisted mask fails to decode, or decodes to different dimensions,
the operation silently substitutes (and installs) a blank all-zero mask of
the current dimensions instead of failing. -/
theorem ensure_mask_spec (decode : String → Option MaskImage) (w h : Int) (layer : Layer) :
    ((ensureLayerIndexMask decode w h layer).1.width = w ∧
      (ensureLayerIndexMask decode w h layer).1.height = h) ∧
    (∀ img, layer.maskImg = some img → img.width = w → img.height = h →
      ensureLayerIndexMask decode w h layer = (img, layer)) ∧
    ((layer.maskImg = none ∨
        (∃ img, layer.maskImg = some img ∧ ¬ (img.width = w ∧ img.height = h))) →
      (∀ s d, layer.maskPngB64 = some s → decode s = some d → d.width = w → d.height = h →
        ensureLayerIndexMask decode w h layer = (d, { layer with maskImg := some d })) ∧
      (∀ s, layer.maskPngB64 = some s →
        (decode s = none ∨ ∃ d, decode s = some d ∧ ¬ (d.width = w ∧ d.height = h)) →
        ensureLayerIndexMask decode w h layer =
          (blankMask w h, { layer with maskImg := some (blankMask w h) })) ∧
      (layer.maskPngB64 = none →
        ensureLayerIndexMask decode w h layer =
          (blankMask w h, { layer with maskImg := some (blankMask w h) }))) ∧
    (∀ j : Int, (blankMask w h).data j = 0) := by
  have hfresh : (layer.maskImg = none ∨
      (∃ img, layer.maskImg = some img ∧ ¬ (img.width = w ∧ img.height = h))) →
      ensureLayerIndexMask decode w h layer = ensureFresh decode w h layer := by
    intro hbad
    unfold ensureLayerIndexMask
    rcases hbad with hnone | ⟨img, himg, hdim⟩
    · rw [hnone]
    · rw [himg]
      dsimp only
      rw [if_neg hdim]
  obtain ⟨f1, f2, f3, f4⟩ := ensureFresh_spec decode w h layer
  refine ⟨?_, ?_, ?_, fun _ => rfl⟩
  · unfold ensureLayerIndexMask
    cases himg : layer.maskImg with
    | none => exact f1
    | some img =>
      dsimp only
      by_cases hdim : img.width = w ∧ img.height = h
      · rw [if_pos hdim]
        exact hdim
      · rw [if_neg hdim]
        exact f1
  · intro img himg hiw hih
    unfold ensureLayerIndexMask
    rw [himg]
    dsimp only
    rw [if_pos ⟨hiw, hih⟩]
  · intro hbad
    refine ⟨?_, ?_, ?_⟩
    · intro s d hs hd hdw hdh
      rw [hfresh hbad]
      exact f3 s d hs hd hdw hdh
    · intro s hs hdec
      rw [hfresh hbad]
      exact f2 s hs hdec
    · intro hnone
      rw [hfresh hbad]
      exact f4 hnone

theorem ensure_mask_spec_witness :
    ensureLayerIndexMask (fun _ => none) 2 2
        ⟨"L", "layer", [], [], some "x", none, none⟩ =
      (blankMask 2 2,
        { (⟨"L", "layer", [], [], some "x", none, none⟩ : Layer) with
          maskImg := some (blankMask 2 2) }) ∧
    (∀ j : Int, (blankMask 2 2).data j = 0) :=
  ⟨((ensure_mask_spec (fun _ => none) 2 2
      ⟨"L", "layer", [], [], some "x", none, none⟩).2.2.1
      (Or.inl rfl)).2.1 "x" rfl (Or.inl rfl),
    (ensure_mask_spec (fun _ => none) 2 2
      ⟨"L", "layer", [], [], some "x", none, none⟩).2.2.2⟩

/-! ### EditService operations

`paint_at` and `erase_at` guard on the current layer / category / radius
and then run the same in-circle loop as the dabs (`dabSetIndex` /
`dabErase` above); the mutated memoryview becomes a functional update of
the current layer's mask image. -/

/-- `EditService.paint_at(x, y)`: `none` (and no byte written) unless a
layer is active, a category is selected and found, and the brush radius is
positive; otherwise paint the stamp and return the touched rect. -/
def paintAt (decode : String → Option MaskImage) (st : AppSt) (x y : Int) :
    AppSt × Option QRect :=
  match currentLayer st with
  | none => (st, none)
  | some layer =>
    match st.currentCategoryId with
    | none => (st, none)
    | some _ =>
      match layer.categories.find? (fun c => st.currentCategoryId == some c.id) with
      | none => (st, none)
      | some cat =>
        let em := ensureLayerIndexMask decode st.project.imageWidth
          st.project.imageHeight layer
        let st1 := { st with project := setLayer st.project em.2 }
        if st.brushRadius ≤ 0 then (st1, none)
        else
          let dab := dabSetIndex st.project.imageWidth st.project.imageHeight
            em.1.bpl em.1.data x y st.brushRadius cat.index
          let img2 : MaskImage := { em.1 with data := dab.1 }
          let layer3 : Layer := { em.2 with maskImg := some img2 }
          ({ st1 with project := setLayer st1.project layer3 }, some dab.2)

/-- Mask-mutating tail of `EditService.erase_at` once the guards passed. -/
def eraseApply (decode : String → Option MaskImage) (st : AppSt) (layer : Layer)
    (x y : Int) (sel : Option Nat) : AppSt × Option QRect :=
  let em := ensureLayerIndexMask decode st.project.imageWidth
    st.project.imageHeight layer
  let st1 := { st with project := setLayer st.project em.2 }
  let dab := dabErase st.project.imageWidth st.project.imageHeight em.1.bpl
    em.1.data x y st.eraseRadius st.eraseMode sel
  let img2 : MaskImage := { em.1 with data := dab.1 }
  let layer3 : Layer := { em.2 with maskImg := some img2 }
  ({ st1 with project := setLayer st1.project layer3 }, some dab.2)

/-- `EditService.erase_at(x, y)`: `none` (and no byte written) unless a
layer is active, the erase radius is positive, and — for the two
category-specific modes — a category is selected and found. -/
def eraseAt (decode : String → Option MaskImage) (st : AppSt) (x y : Int) :
    AppSt × Option QRect :=
  match currentLayer st with
  | none => (st, none)
  | some layer =>
    if st.eraseRadius ≤ 0 then (st, none)
    else if st.eraseMode = EraseMode.eraseOnlyCategory ∨
        st.eraseMode = EraseMode.eraseAllButCategory then
      match st.currentCategoryId with
      | none => (st, none)
      | some _ =>
        match layer.categories.find? (fun c => st.currentCategoryId == some c.id) with
        | none => (st, none)
        | some cat => eraseApply decode st layer x y (some cat.index)
    else eraseApply decode st layer x y none

/-- `EditService.delete_category_and_clear_pixels(category_id)`: drop the
category from the current layer's list, invalidate the cached LUT, detach
every entity referencing it, and — when the project has an image — clear
every byte of the layer's mask currently equal to the deleted index by a
full `sizeInBytes` scan.  Returns the deleted index. -/
def deleteCategoryAndClearPixels (decode : String → Option MaskImage) (st : AppSt)
    (categoryId : String) : AppSt × Option Nat :=
  match currentLayer st with
  | none => (st, none)
  | some layer =>
    match (layer.categories.find? (fun c => c.id == categoryId)).map (fun c => c.index),
        st.project.imagePath with
    | none, _ =>
      let layer2 : Layer := { layer with
        categories := layer.categories.filter (fun c => !(c.id == categoryId)),
        lut := none,
        entities := layer.entities.map (fun e =>
          if e.categoryId == some categoryId then { e with categoryId := none }
          else e) }
      ({ st with project := setLayer st.project layer2 }, none)
    | some di, none =>
      let layer2 : Layer := { layer with
        categories := layer.categories.filter (fun c => !(c.id == categoryId)),
        lut := none,
        entities := layer.entities.map (fun e =>
          if e.categoryId == some categoryId then { e with categoryId := none }
          else e) }
      ({ st with project := setLayer st.project layer2 }, some di)
    | some di, some _ =>
      let layer2 : Layer := { layer with
        categories := layer.categories.filter (fun c => !(c.id == categoryId)),
        lut := none,
        entities := layer.entities.map (fun e =>
          if e.categoryId == some categoryId then { e with categoryId := none }
          else e) }
      let em := ensureLayerIndexMask decode st.project.imageWidth
        st.project.imageHeight layer2
      let cleared := (List.range (em.1.bpl * em.1.height).toNat).foldl
        (fun mm (i : Nat) =>
          if mm (i : Int) = di then upd mm (i : Int) 0 else mm) em.1.data
      let img2 : MaskImage := { em.1 with data := cleared }
      let layer3 : Layer := { em.2 with maskImg := some img2 }
      ({ st with project := setLayer st.project layer3 }, some di)

/-- Index selection of `PixTagMainWindow.add_category`: the first index in
`range(1, 256)` not used by any of the layer's categories. -/
def chooseCategoryIndex (layer : Layer) : Option Nat :=
  (List.range' 1 255).find? (fun i => !(layer.categories.any (fun c => c.index == i)))

/-- Claim C5: deleting a category with index `di` from the current layer
removes it from the layer's category list (and, with unique indices, no
remaining category holds `di`, so the first-free-index scan of
`add_category` returns `di` again once all smaller indices are in use),
sets the category reference to `none` on every entity that referenced it,
invalidates the layer's cached LUT, and clears to 0 every byte of the
layer's index mask equal to `di`, so that no byte of the `sizeInBytes`
scan range still holds `di`. -/
theorem delete_category_spec (decode : String → Option MaskImage) (st : AppSt)
    (cid : String) (layer : Layer) (cat : Category) (di : Nat) (path : String)
    (img : MaskImage)
    (hcl : currentLayer st = some layer)
    (hfind : layer.categories.find? (fun c => c.id == cid) = some cat)
    (hdi : cat.index = di) (hdi0 : di ≠ 0) (hdi1 : 1 ≤ di) (hdi255 : di ≤ 255)
    (hpath : st.project.imagePath = some path)
    (himg : layer.maskImg = some img)
    (hiw : img.width = st.project.imageWidth)
    (hih : img.height = st.project.imageHeight) :
    (deleteCategoryAndClearPixels decode st cid).2 = some di ∧
    ∃ L3 : Layer, currentLayer (deleteCategoryAndClearPixels decode st cid).1 = some L3 ∧
      L3.categories = layer.categories.filter (fun c => !(c.id == cid)) ∧
      ((∀ c ∈ layer.categories, c.index = di → c.id = cid) →
        ∀ c ∈ L3.categories, c.index ≠ di) ∧
      L3.entities = layer.entities.map (fun e =>
        if e.categoryId == some cid then { e with categoryId := none } else e) ∧
      (∀ e ∈ L3.entities, e.categoryId ≠ some cid) ∧
      L3.lut = none ∧
      (∃ img2 : MaskImage, L3.maskImg = some img2 ∧
        (∀ j : Int, 0 ≤ j → j < img.bpl * img.height →
          img2.data j = if img.data j = di then 0 else img.data j) ∧
        (∀ j : Int, 0 ≤ j → j < img.bpl * img.height → img2.data j ≠ di)) ∧
      ((∀ k : Nat, 1 ≤ k → k < di →
          (layer.categories.filter (fun c => !(c.id == cid))).any
            (fun c => c.index == k)) →
        ((∀ c ∈ layer.categories, c.index = di → c.id = cid) →
          chooseCategoryIndex L3 = some di)) := by
  have hens : ensureLayerIndexMask decode st.project.imageWidth st.project.imageHeight
      ({ layer with
        categories := layer.categories.filter (fun c => !(c.id == cid)),
        lut := none,
        entities := layer.entities.map (fun e =>
          if e.categoryId == some cid then { e with categoryId := none }
          else e) }) =
      (img, { layer with
        categories := layer.categories.filter (fun c => !(c.id == cid)),
        lut := none,
        entities := layer.entities.map (fun e =>
          if e.categoryId == some cid then { e with categoryId := none }
          else e) }) :=
    (ensure_mask_spec decode st.project.imageWidth st.project.imageHeight _).2.1
      img himg hiw hih
  unfold deleteCategoryAndClearPixels
  rw [hcl]
  dsimp only
  rw [hfind, Option.map_some', hdi, hpath]
  dsimp only
  rw [hens]
  dsimp only
  -- the cleared byte scan, pointwise
  have hclear : ∀ j : Int, 0 ≤ j → j < img.bpl * img.height →
      ((List.range (img.bpl * img.height).toNat).foldl (fun mm (i : Nat) =>
        if mm (i : Int) = di then upd mm (i : Int) 0 else mm) img.data) j =
      if img.data j = di then 0 else img.data j := by
    intro j hj0 hjlt
    refine foldl_apply_of_touched
      (fun mm (i : Nat) => if mm (i : Int) = di then upd mm (i : Int) 0 else mm)
      (fun i j' => (i : Int) = j')
      (fun _ _ v => if v = di then 0 else v) ?_ ?_ j _
      (List.nodup_range _) j.toNat ?_ (by omega) ?_ img.data
    · intro mm i j' hC
      dsimp only
      rw [← hC]
      by_cases hv : mm (i : Int) = di
      · rw [if_pos hv, if_pos hv]
        simp [upd]
      · rw [if_neg hv, if_neg hv]
    · intro mm i j' hC
      dsimp only
      by_cases hv : mm (i : Int) = di
      · rw [if_pos hv]
        exact if_neg (fun heq => hC heq.symm)
      · rw [if_neg hv]
    · rw [List.mem_range]
      omega
    · intro i' _ hC'
      omega
  refine ⟨rfl, ?_⟩
  refine ⟨_, find?_setLayer st.project st.currentLayerId layer _ hcl rfl, rfl, ?_, rfl,
    ?_, rfl, ⟨_, rfl, hclear, ?_⟩, ?_⟩
  · intro huniq c hc hcdi
    rw [List.mem_filter] at hc
    have := huniq c hc.1 hcdi
    rw [this] at hc
    simp at hc
  · intro e he
    obtain ⟨a, _, rfl⟩ := List.mem_map.1 he
    by_cases hac : a.categoryId == some cid
    · rw [if_pos hac]
      simp
    · rw [if_neg hac]
      intro heq
      rw [heq] at hac
      simp at hac
  · intro j hj0 hjlt
    dsimp only
    rw [hclear j hj0 hjlt]
    by_cases hv : img.data j = di
    · rw [if_pos hv]
      omega
    · rw [if_neg hv]
      exact hv
  · intro hsmall huniq
    have hnotdi : ∀ c ∈ layer.categories.filter (fun c => !(c.id == cid)),
        c.index ≠ di := by
      intro c hc hcdi
      rw [List.mem_filter] at hc
      have := huniq c hc.1 hcdi
      rw [this] at hc
      simp at hc
    unfold chooseCategoryIndex
    dsimp only
    have hsplit := List.range'_append_1 1 (di - 1) (255 - (di - 1))
    rw [show 1 + (di - 1) = di by omega,
      show 255 - (di - 1) + (di - 1) = 255 by omega] at hsplit
    rw [← hsplit, List.find?_append]
    have hleft : (List.range' 1 (di - 1)).find?
        (fun i => !((layer.categories.filter (fun c => !(c.id == cid))).any
          (fun c => c.index == i))) = none := by
      rw [List.find?_eq_none]
      intro k hk
      rw [List.mem_range'_1] at hk
      have := hsmall k hk.1 (by omega)
      simp only [this]
      intro hcontra
      cases hcontra
    rw [hleft]
    rw [show 255 - (di - 1) = (255 - di) + 1 by omega, List.range'_succ]
    rw [List.find?_cons_of_pos]
    · rfl
    · simp only [Bool.not_eq_true']
      rw [List.any_eq_false]
      intro c hc
      simp only [beq_iff_eq]
      exact hnotdi c hc

def catW : Category := ⟨"C", "cat", (0, 0, 0, 0), 1⟩

def entW : Entity := ⟨"E", "ent", some "C", 0, 0⟩

def imgW : MaskImage := ⟨2, 2, 2, fun j => if j = 1 then 1 else 0⟩

def layerW : Layer := ⟨"L", "layer", [catW], [entW], none, some imgW, some []⟩

def stW : AppSt :=
  ⟨⟨some "p.png", 2, 2, [layerW]⟩, some "L", some "C", none, Tool.brush,
    6, 6, 6, EraseMode.eraseAll, ⟨none, [], none⟩, false, none⟩

theorem delete_category_spec_witness :
    (deleteCategoryAndClearPixels (fun _ => none) stW "C").2 = some 1 ∧
    ∃ L3 : Layer, currentLayer (deleteCategoryAndClearPixels (fun _ => none) stW "C").1 = some L3 ∧
      L3.categories = layerW.categories.filter (fun c => !(c.id == "C")) ∧
      ((∀ c ∈ layerW.categories, c.index = 1 → c.id = "C") →
        ∀ c ∈ L3.categories, c.index ≠ 1) ∧
      L3.entities = layerW.entities.map (fun e =>
        if e.categoryId == some "C" then { e with categoryId := none } else e) ∧
      (∀ e ∈ L3.entities, e.categoryId ≠ some "C") ∧
      L3.lut = none ∧
      (∃ img2 : MaskImage, L3.maskImg = some img2 ∧
        (∀ j : Int, 0 ≤ j → j < imgW.bpl * imgW.height →
          img2.data j = if imgW.data j = 1 then 0 else imgW.data j) ∧
        (∀ j : Int, 0 ≤ j → j < imgW.bpl * imgW.height → img2.data j ≠ 1)) ∧
      ((∀ k : Nat, 1 ≤ k → k < 1 →
          (layerW.categories.filter (fun c => !(c.id == "C"))).any
            (fun c => c.index == k)) →
        ((∀ c ∈ layerW.categories, c.index = 1 → c.id = "C") →
          chooseCategoryIndex L3 = some 1)) :=
  delete_category_spec (fun _ => none) stW "C" layerW catW 1 "p.png" imgW
    rfl rfl rfl (by decide) (by decide) (by decide) rfl rfl rfl rfl

/-! ### `EditService.probe_at`

Python dicts are modelled as insertion-ordered association lists:
`counts[idx] = counts.get(idx, 0) + 1` updates an existing entry in place
or appends a new one, and the comprehension building `idx_to_name` lets a
later category overwrite an earlier one with the same index (so a lookup
hits the last category holding the index).  Float percentages are
idealised as exact rationals, so the literal `0.2` is `1/5`.
`results.sort(reverse=True)` is a stable sort by the reversed
lexicographic order on `(pct, name)` tuples. -/

def bumpCount : List (Nat × Nat) → Nat → List (Nat × Nat)
  | [], k => [(k, 1)]
  | (k', v) :: t, k =>
    if k' = k then (k', v + 1) :: t else (k', v) :: bumpCount t k

/-- `idx_to_name.get(idx, f"Unknown({idx})")`. -/
def idxToName (layer : Layer) (idx : Nat) : String :=
  match layer.categories.reverse.find? (fun c => c.index == idx) with
  | some c => c.name
  | none => s!"Unknown({idx})"

/-- `(p1, n1) >= (p2, n2)` in Python tuple order: the sort key of
`results.sort(reverse=True)`. -/
def tupleGe (a b : Rat × String) : Bool :=
  !(decide (a.1 < b.1) || (a.1 == b.1 && decide (a.2 < b.2)))

def pySortDesc (l : List (Rat × String)) : List (Rat × String) :=
  l.mergeSort tupleGe

/-- The pixels of the nested `for yy … for xx` loops, in visit order. -/
def probePixels (x0 x1 y0 y1 : Int) : List (Int × Int) :=
  (intRange y0 y1).flatMap (fun yy => (intRange x0 x1).map (fun xx => (xx, yy)))

/-- One iteration of the sampling loop body: skip the pixel when outside
the circle, else count it and, when its byte is nonzero, bump that byte's
entry of the `counts` dict. -/
def probeStep (m : Mem) (bpl x y rr : Int) (acc : Nat × List (Nat × Nat))
    (p : Int × Int) : Nat × List (Nat × Nat) :=
  if (p.1 - x) * (p.1 - x) + (p.2 - y) * (p.2 - y) > rr then acc
  else
    let idx := m (p.2 * bpl + p.1)
    (acc.1 + 1, if idx ≠ 0 then bumpCount acc.2 idx else acc.2)

/-- The category report built from the sampling loop: percentages of the
total sampled count for every counted byte value, names resolved through
`idx_to_name`, filtered to percentages above `0.2`, sorted descending
(empty when nothing was sampled). -/
def probeResults (m : Mem) (bpl x y rr : Int) (layer : Layer)
    (box : List (Int × Int)) : List (Rat × String) :=
  let scan := box.foldl (probeStep m bpl x y rr) (0, [])
  if 0 < scan.1 then
    pySortDesc ((scan.2.map (fun kc =>
      ((kc.2 : Rat) / (scan.1 : Rat) * 100, idxToName layer kc.1))).filter
      (fun e => decide ((1 : Rat) / 5 < e.1)))
  else []

/-- `EditService.probe_at(x, y)`: `([], [])` unless a layer is active and
the probe radius is positive; otherwise sample the circle of the clamped
bounding box, turn the nonzero-byte counts into percentages of the total
sampled pixel count, keep those above `0.2`, sort descending, and collect
the names of the in-radius entities. -/
def probeAt (decode : String → Option MaskImage) (st : AppSt) (x y : Int) :
    AppSt × List (Rat × String) × List String :=
  match currentLayer st with
  | none => (st, [], [])
  | some layer =>
    if st.probeRadius ≤ 0 then (st, [], [])
    else
      let em := ensureLayerIndexMask decode st.project.imageWidth
        st.project.imageHeight layer
      let st1 := { st with project := setLayer st.project em.2 }
      let r := st.probeRadius
      let x0 := max 0 (x - r)
      let x1 := min (st.project.imageWidth - 1) (x + r)
      let y0 := max 0 (y - r)
      let y1 := min (st.project.imageHeight - 1) (y + r)
      let rr := r * r
      let results := probeResults em.1.data em.1.bpl x y rr layer
        (probePixels x0 x1 y0 y1)
      let ents := (layer.entities.filter (fun e =>
        decide ((e.x - (x : Rat)) * (e.x - (x : Rat)) +
          (e.y - (y : Rat)) * (e.y - (y : Rat)) ≤ ((rr : Int) : Rat)))).map
        (fun e => e.name)
      (st1, results, ents)

/-- The pixels actually sampled by a probe: the clamped bounding box
restricted to the Euclidean circle. -/
def probeSamples (w h x y r : Int) : List (Int × Int) :=
  (probePixels (max 0 (x - r)) (min (w - 1) (x + r)) (max 0 (y - r))
    (min (h - 1) (y + r))).filter
    (fun p => decide ((p.1 - x) * (p.1 - x) + (p.2 - y) * (p.2 - y) ≤ r * r))

/-- Number of pixels of `ps` whose mask byte equals `k`. -/
def sampleCount (m : Mem) (bpl : Int) (ps : List (Int × Int)) (k : Nat) : Nat :=
  (ps.filter (fun p => m (p.2 * bpl + p.1) == k)).length

/-- Association-list lookup (first entry wins), for stating the dict
invariants of the sampling loop. -/
def lookC : List (Nat × Nat) → Nat → Option Nat
  | [], _ => none
  | (k', v) :: t, k => if k' = k then some v else lookC t k

/-- Accumulating `n` observations of a key on top of a prior entry. -/
def lookAdd (o : Option Nat) (n : Nat) : Option Nat :=
  match o with
  | some v => some (v + n)
  | none => if n = 0 then none else some n

theorem lookC_bumpCount_self (k : Nat) :
    ∀ l : List (Nat × Nat), lookC (bumpCount l k) k = some ((lookC l k).getD 0 + 1) := by
  intro l
  induction l with
  | nil => simp [bumpCount, lookC]
  | cons a t ih =>
    obtain ⟨k', v⟩ := a
    by_cases h : k' = k
    · subst h
      rw [bumpCount, if_pos rfl, lookC, if_pos rfl, lookC, if_pos rfl]
      rfl
    · rw [bumpCount, if_neg h, lookC, if_neg h, lookC, if_neg h, ih]

theorem lookC_bumpCount_ne (k k' : Nat) (h : k' ≠ k) :
    ∀ l : List (Nat × Nat), lookC (bumpCount l k) k' = lookC l k' := by
  intro l
  induction l with
  | nil =>
    rw [bumpCount, lookC, lookC, if_neg (fun he => h he.symm)]
    rfl
  | cons a t ih =>
    obtain ⟨k0, v⟩ := a
    by_cases h0 : k0 = k
    · subst h0
      rw [bumpCount, if_pos rfl, lookC, lookC,
        if_neg (fun he : k0 = k' => h (he.symm)), if_neg (fun he : k0 = k' => h (he.symm))]
    · rw [bumpCount, if_neg h0]
      by_cases h1 : k0 = k'
      · rw [lookC, if_pos h1, lookC, if_pos h1]
      · rw [lookC, if_neg h1, lookC, if_neg h1, ih]

theorem keys_bumpCount (k : Nat) :
    ∀ l : List (Nat × Nat), (bumpCount l k).map Prod.fst = l.map Prod.fst ∨
      (lookC l k = none ∧ (bumpCount l k).map Prod.fst = l.map Prod.fst ++ [k]) := by
  intro l
  induction l with
  | nil => exact Or.inr ⟨rfl, rfl⟩
  | cons a t ih =>
    obtain ⟨k', v⟩ := a
    by_cases h : k' = k
    · subst h
      rw [bumpCount, if_pos rfl]
      exact Or.inl rfl
    · rw [bumpCount, if_neg h, lookC, if_neg h]
      rcases ih with h1 | ⟨h1, h2⟩
      · exact Or.inl (by rw [List.map_cons, List.map_cons, h1])
      · exact Or.inr ⟨h1, by rw [List.map_cons, List.map_cons, h2]; rfl⟩

theorem lookC_eq_none_of_not_mem_keys (k : Nat) :
    ∀ l : List (Nat × Nat), k ∉ l.map Prod.fst → lookC l k = none := by
  intro l
  induction l with
  | nil => intro _; rfl
  | cons a t ih =>
    obtain ⟨k', v⟩ := a
    intro hk
    rw [List.map_cons, List.mem_cons] at hk
    push_neg at hk
    rw [lookC, if_neg (fun he => hk.1 he.symm)]
    exact ih hk.2

theorem lookC_ne_none_of_mem_keys (k : Nat) :
    ∀ l : List (Nat × Nat), k ∈ l.map Prod.fst → lookC l k ≠ none := by
  intro l
  induction l with
  | nil => intro h; cases h
  | cons a t ih =>
    obtain ⟨k', v⟩ := a
    intro hk
    by_cases h : k' = k
    · rw [lookC, if_pos h]
      exact Option.some_ne_none v
    · rw [lookC, if_neg h]
      rw [List.map_cons, List.mem_cons] at hk
      rcases hk with he | hm
      · exact absurd he.symm h
      · exact ih hm

theorem nodup_keys_bumpCount (k : Nat) (l : List (Nat × Nat))
    (h : (l.map Prod.fst).Nodup) : ((bumpCount l k).map Prod.fst).Nodup := by
  rcases keys_bumpCount k l with h1 | ⟨h1, h2⟩
  · rw [h1]; exact h
  · rw [h2]
    rw [List.nodup_append]
    refine ⟨h, List.nodup_singleton k, ?_⟩
    intro a ha hb
    rw [List.mem_singleton] at hb
    subst hb
    exact lookC_ne_none_of_mem_keys a l ha h1

theorem mem_iff_lookC (l : List (Nat × Nat)) (h : (l.map Prod.fst).Nodup)
    (k v : Nat) : (k, v) ∈ l ↔ lookC l k = some v := by
  induction l with
  | nil => simp [lookC]
  | cons a t ih =>
    obtain ⟨k', v'⟩ := a
    rw [List.map_cons, List.nodup_cons] at h
    constructor
    · intro hm
      rcases List.mem_cons.1 hm with he | hm'
      · rw [Prod.mk.injEq] at he
        rw [lookC, if_pos he.1.symm, he.2]
      · by_cases hk : k' = k
        · subst hk
          exact absurd (List.mem_map.2 ⟨(k', v), hm', rfl⟩) h.1
        · rw [lookC, if_neg hk]
          exact (ih h.2 |>.1) hm'
    · intro hl
      rw [lookC] at hl
      by_cases hk : k' = k
      · rw [if_pos hk] at hl
        rw [Option.some.injEq] at hl
        subst hk
        subst hl
        exact List.mem_cons_self _ _
      · rw [if_neg hk] at hl
        exact List.mem_cons_of_mem _ ((ih h.2).2 hl)

theorem probeScan_total (m : Mem) (bpl x y rr : Int) :
    ∀ (l : List (Int × Int)) (t0 : Nat) (c0 : List (Nat × Nat)),
      (l.foldl (probeStep m bpl x y rr) (t0, c0)).1 =
        t0 + (l.filter (fun p =>
          decide ((p.1 - x) * (p.1 - x) + (p.2 - y) * (p.2 - y) ≤ rr))).length := by
  intro l
  induction l with
  | nil =>
    intro t0 c0
    simp
  | cons p t ih =>
    intro t0 c0
    rw [List.foldl_cons, List.filter_cons]
    by_cases hd : (p.1 - x) * (p.1 - x) + (p.2 - y) * (p.2 - y) > rr
    · have hstep : probeStep m bpl x y rr (t0, c0) p = (t0, c0) := by
        simp only [probeStep]
        rw [if_pos hd]
      have hfd : (decide ((p.1 - x) * (p.1 - x) + (p.2 - y) * (p.2 - y) ≤ rr)) = false :=
        decide_eq_false (not_le.2 hd)
      rw [hstep, ih t0 c0]
      simp [hfd]
    · push_neg at hd
      have hstep : probeStep m bpl x y rr (t0, c0) p =
          (t0 + 1, if m (p.2 * bpl + p.1) ≠ 0 then
            bumpCount c0 (m (p.2 * bpl + p.1)) else c0) := by
        simp only [probeStep]
        rw [if_neg (not_lt.2 hd)]
      have hfd : (decide ((p.1 - x) * (p.1 - x) + (p.2 - y) * (p.2 - y) ≤ rr)) = true :=
        decide_eq_true hd
      rw [hstep, ih]
      simp [hfd]
      omega

theorem probeScan_counts (m : Mem) (bpl x y rr : Int) (k : Nat) (hk : k ≠ 0) :
    ∀ (l : List (Int × Int)) (t0 : Nat) (c0 : List (Nat × Nat)),
      lookC (l.foldl (probeStep m bpl x y rr) (t0, c0)).2 k =
        lookAdd (lookC c0 k)
          (l.filter (fun p =>
            decide ((p.1 - x) * (p.1 - x) + (p.2 - y) * (p.2 - y) ≤ rr) &&
              (m (p.2 * bpl + p.1) == k))).length := by
  intro l
  induction l with
  | nil =>
    intro t0 c0
    cases hc : lookC c0 k <;> simp [lookAdd, hc]
  | cons p t ih =>
    intro t0 c0
    rw [List.foldl_cons, List.filter_cons]
    by_cases hd : (p.1 - x) * (p.1 - x) + (p.2 - y) * (p.2 - y) > rr
    · have hstep : probeStep m bpl x y rr (t0, c0) p = (t0, c0) := by
        simp only [probeStep]
        rw [if_pos hd]
      have hfd : (decide ((p.1 - x) * (p.1 - x) + (p.2 - y) * (p.2 - y) ≤ rr)) = false :=
        decide_eq_false (not_le.2 hd)
      rw [hstep, ih t0 c0]
      simp [hfd]
    · push_neg at hd
      have hdy : (decide ((p.1 - x) * (p.1 - x) + (p.2 - y) * (p.2 - y) ≤ rr)) = true :=
        decide_eq_true hd
      by_cases hz : m (p.2 * bpl + p.1) = 0
      · have hstep : probeStep m bpl x y rr (t0, c0) p = (t0 + 1, c0) := by
          simp only [probeStep]
          rw [if_neg (not_lt.2 hd), if_neg (fun hh => hh hz)]
        have hbk : (m (p.2 * bpl + p.1) == k) = false := by
          rw [hz]
          exact beq_eq_false_iff_ne.2 (fun he => hk he.symm)
        rw [hstep, ih]
        simp [hdy, hbk]
      · by_cases he : m (p.2 * bpl + p.1) = k
        · have hstep : probeStep m bpl x y rr (t0, c0) p =
              (t0 + 1, bumpCount c0 k) := by
            simp only [probeStep]
            rw [if_neg (not_lt.2 hd), if_pos (fun hh => hz hh), he]
          have hbk : (m (p.2 * bpl + p.1) == k) = true := by
            rw [he]
            exact beq_self_eq_true k
          rw [hstep, ih, lookC_bumpCount_self k c0]
          simp only [hdy, hbk, Bool.and_self, Bool.true_and, if_pos]
          cases ho : lookC c0 k <;> simp [lookAdd, ho] <;> omega
        · have hstep : probeStep m bpl x y rr (t0, c0) p =
              (t0 + 1, bumpCount c0 (m (p.2 * bpl + p.1))) := by
            simp only [probeStep]
            rw [if_neg (not_lt.2 hd), if_pos (fun hh => hz hh)]
          have hbk : (m (p.2 * bpl + p.1) == k) = false :=
            beq_eq_false_iff_ne.2 he
          rw [hstep, ih, lookC_bumpCount_ne (m (p.2 * bpl + p.1)) k
            (fun hh => he hh.symm) c0]
          simp [hdy, hbk]

theorem probeScan_nodup (m : Mem) (bpl x y rr : Int) :
    ∀ (l : List (Int × Int)) (t0 : Nat) (c0 : List (Nat × Nat)),
      (c0.map Prod.fst).Nodup →
      (((l.foldl (probeStep m bpl x y rr) (t0, c0)).2).map Prod.fst).Nodup := by
  intro l
  induction l with
  | nil =>
    intro t0 c0 h
    exact h
  | cons p t ih =>
    intro t0 c0 h
    rw [List.foldl_cons]
    by_cases hd : (p.1 - x) * (p.1 - x) + (p.2 - y) * (p.2 - y) > rr
    · have hstep : probeStep m bpl x y rr (t0, c0) p = (t0, c0) := by
        simp only [probeStep]
        rw [if_pos hd]
      rw [hstep]
      exact ih t0 c0 h
    · by_cases hz : m (p.2 * bpl + p.1) = 0
      · have hstep : probeStep m bpl x y rr (t0, c0) p = (t0 + 1, c0) := by
          simp only [probeStep]
          rw [if_neg hd, if_neg (fun hh => hh hz)]
        rw [hstep]
        exact ih (t0 + 1) c0 h
      · have hstep : probeStep m bpl x y rr (t0, c0) p =
            (t0 + 1, bumpCount c0 (m (p.2 * bpl + p.1))) := by
          simp only [probeStep]
          rw [if_neg hd, if_pos (fun hh => hz hh)]
        rw [hstep]
        exact ih (t0 + 1) _ (nodup_keys_bumpCount _ c0 h)

theorem probeScan_zero (m : Mem) (bpl x y rr : Int) :
    ∀ (l : List (Int × Int)) (t0 : Nat) (c0 : List (Nat × Nat)),
      lookC c0 0 = none →
      lookC ((l.foldl (probeStep m bpl x y rr) (t0, c0)).2) 0 = none := by
  intro l
  induction l with
  | nil =>
    intro t0 c0 h
    exact h
  | cons p t ih =>
    intro t0 c0 h
    rw [List.foldl_cons]
    by_cases hd : (p.1 - x) * (p.1 - x) + (p.2 - y) * (p.2 - y) > rr
    · have hstep : probeStep m bpl x y rr (t0, c0) p = (t0, c0) := by
        simp only [probeStep]
        rw [if_pos hd]
      rw [hstep]
      exact ih t0 c0 h
    · by_cases hz : m (p.2 * bpl + p.1) = 0
      · have hstep : probeStep m bpl x y rr (t0, c0) p = (t0 + 1, c0) := by
          simp only [probeStep]
          rw [if_neg hd, if_neg (fun hh => hh hz)]
        rw [hstep]
        exact ih (t0 + 1) c0 h
      · have hstep : probeStep m bpl x y rr (t0, c0) p =
            (t0 + 1, bumpCount c0 (m (p.2 * bpl + p.1))) := by
          simp only [probeStep]
          rw [if_neg hd, if_pos (fun hh => hz hh)]
        rw [hstep]
        refine ih (t0 + 1) _ ?_
        rw [lookC_bumpCount_ne (m (p.2 * bpl + p.1)) 0 (fun hh => hz hh.symm) c0]
        exact h

theorem tupleGe_eq_true_iff (a b : Rat × String) :
    tupleGe a b = true ↔ (b.1 ≤ a.1 ∧ (a.1 = b.1 → b.2 ≤ a.2)) := by
  unfold tupleGe
  rw [Bool.not_eq_true', Bool.or_eq_false_iff, Bool.and_eq_false_iff]
  constructor
  · rintro ⟨h1, h2⟩
    rw [decide_eq_false_iff_not, not_lt] at h1
    refine ⟨h1, fun he => ?_⟩
    rcases h2 with h2 | h2
    · rw [beq_eq_false_iff_ne] at h2
      exact absurd he h2
    · rw [decide_eq_false_iff_not, not_lt] at h2
      exact h2
  · rintro ⟨h1, h2⟩
    refine ⟨by rw [decide_eq_false_iff_not, not_lt]; exact h1, ?_⟩
    by_cases he : a.1 = b.1
    · right
      rw [decide_eq_false_iff_not, not_lt]
      exact h2 he
    · left
      rw [beq_eq_false_iff_ne]
      exact he

theorem tupleGe_trans (a b c : Rat × String) :
    tupleGe a b → tupleGe b c → tupleGe a c := by
  intro hab hbc
  rw [tupleGe_eq_true_iff] at hab hbc ⊢
  obtain ⟨h1, h2⟩ := hab
  obtain ⟨h3, h4⟩ := hbc
  refine ⟨le_trans h3 h1, fun he => ?_⟩
  have hb1 : b.1 = a.1 := le_antisymm h1 (by rw [he]; exact h3)
  exact le_trans (h4 (by rw [hb1, he])) (h2 hb1.symm)

theorem tupleGe_total (a b : Rat × String) : tupleGe a b || tupleGe b a := by
  rw [Bool.or_eq_true, tupleGe_eq_true_iff, tupleGe_eq_true_iff]
  rcases le_or_lt a.1 b.1 with h | h
  · rcases lt_or_eq_of_le h with h' | h'
    · exact Or.inr ⟨le_of_lt h', fun he => absurd he (ne_of_gt h')⟩
    · rcases le_total a.2 b.2 with hs | hs
      · exact Or.inr ⟨le_of_eq h', fun _ => hs⟩
      · exact Or.inl ⟨le_of_eq h'.symm, fun _ => hs⟩
  · exact Or.inl ⟨le_of_lt h, fun he => absurd he (ne_of_gt h)⟩

theorem pySortDesc_sorted (l : List (Rat × String)) :
    (pySortDesc l).Pairwise (fun a b => b.1 ≤ a.1 ∧ (a.1 = b.1 → b.2 ≤ a.2)) := by
  refine (List.sorted_mergeSort tupleGe_trans tupleGe_total l).imp ?_
  intro a b hab
  exact (tupleGe_eq_true_iff a b).1 hab

theorem probeResults_sorted (m : Mem) (bpl x y rr : Int) (layer : Layer)
    (box : List (Int × Int)) :
    (probeResults m bpl x y rr layer box).Pairwise
      (fun a b => b.1 ≤ a.1 ∧ (a.1 = b.1 → b.2 ≤ a.2)) := by
  unfold probeResults
  dsimp only
  by_cases h : 0 < (box.foldl (probeStep m bpl x y rr) (0, [])).1
  · rw [if_pos h]
    exact pySortDesc_sorted _
  · rw [if_neg h]
    exact List.Pairwise.nil

theorem mem_probeResults (m : Mem) (bpl x y rr : Int) (layer : Layer)
    (box : List (Int × Int)) (e : Rat × String) :
    e ∈ probeResults m bpl x y rr layer box ↔
      (0 < (box.filter (fun p =>
          decide ((p.1 - x) * (p.1 - x) + (p.2 - y) * (p.2 - y) ≤ rr))).length ∧
        ∃ k : Nat, k ≠ 0 ∧
          0 < sampleCount m bpl (box.filter (fun p =>
            decide ((p.1 - x) * (p.1 - x) + (p.2 - y) * (p.2 - y) ≤ rr))) k ∧
          e = ((sampleCount m bpl (box.filter (fun p =>
              decide ((p.1 - x) * (p.1 - x) + (p.2 - y) * (p.2 - y) ≤ rr))) k : Rat) /
            ((box.filter (fun p =>
              decide ((p.1 - x) * (p.1 - x) + (p.2 - y) * (p.2 - y) ≤ rr))).length : Rat) *
              100,
            idxToName layer k) ∧
          (1 : Rat) / 5 < e.1) := by
  have htot := probeScan_total m bpl x y rr box 0 []
  rw [Nat.zero_add] at htot
  have hcnt : ∀ k : Nat, k ≠ 0 →
      lookC (box.foldl (probeStep m bpl x y rr) (0, [])).2 k =
        lookAdd none (sampleCount m bpl (box.filter (fun p =>
          decide ((p.1 - x) * (p.1 - x) + (p.2 - y) * (p.2 - y) ≤ rr))) k) := by
    intro k hk
    rw [probeScan_counts m bpl x y rr k hk box 0 []]
    congr 1
    unfold sampleCount
    rw [List.filter_filter]
    congr 1
    exact List.filter_congr (fun a _ => Bool.and_comm _ _)
  have hmem : ∀ kc : Nat × Nat, kc ∈ (box.foldl (probeStep m bpl x y rr) (0, [])).2 ↔
      (kc.1 ≠ 0 ∧ kc.2 = sampleCount m bpl (box.filter (fun p =>
          decide ((p.1 - x) * (p.1 - x) + (p.2 - y) * (p.2 - y) ≤ rr))) kc.1 ∧
        0 < sampleCount m bpl (box.filter (fun p =>
          decide ((p.1 - x) * (p.1 - x) + (p.2 - y) * (p.2 - y) ≤ rr))) kc.1) := by
    intro kc
    obtain ⟨k, v⟩ := kc
    rw [mem_iff_lookC _ (probeScan_nodup m bpl x y rr box 0 [] (by simp)) k v]
    by_cases hk : k = 0
    · subst hk
      rw [probeScan_zero m bpl x y rr box 0 [] rfl]
      simp
    · rw [hcnt k hk]
      dsimp only
      simp only [lookAdd]
      by_cases hz : sampleCount m bpl (box.filter (fun p =>
          decide ((p.1 - x) * (p.1 - x) + (p.2 - y) * (p.2 - y) ≤ rr))) k = 0
      · rw [hz]
        simp [hk]
      · rw [if_neg hz]
        constructor
        · intro h
          injection h with h
          exact ⟨hk, h.symm, Nat.pos_of_ne_zero hz⟩
        · rintro ⟨-, h, -⟩
          rw [h]
  unfold probeResults
  dsimp only
  by_cases hpos : 0 < (box.foldl (probeStep m bpl x y rr) (0, [])).1
  · rw [if_pos hpos]
    unfold pySortDesc
    rw [List.mem_mergeSort, List.mem_filter, List.mem_map]
    constructor
    · rintro ⟨⟨kc, hkc, rfl⟩, hpred⟩
      obtain ⟨hk0, hv, hcp⟩ := (hmem kc).1 hkc
      rw [decide_eq_true_eq] at hpred
      refine ⟨htot ▸ hpos, kc.1, hk0, hcp, ?_, hpred⟩
      rw [hv, htot]
    · rintro ⟨hlen, k, hk0, hcp, he, hpe⟩
      subst he
      refine ⟨⟨(k, sampleCount m bpl (box.filter (fun p =>
        decide ((p.1 - x) * (p.1 - x) + (p.2 - y) * (p.2 - y) ≤ rr))) k),
        (hmem _).2 ⟨hk0, rfl, hcp⟩, ?_⟩, ?_⟩
      · dsimp only
        rw [htot]
      · rw [decide_eq_true_eq]
        exact hpe
  · rw [if_neg hpos]
    constructor
    · intro h
      cases h
    · rintro ⟨hlen, -⟩
      exact absurd (by rw [htot]; exact hlen) hpos

/-- Claim C4: for a probe at `(x, y)` with positive radius on a layer whose
cached mask matches the project dimensions, every reported category entry
is `100 * cnt / total` for the count `cnt` of sampled in-circle pixels
holding some nonzero byte value, where `total` is the number of sampled
pixels (the clamped bounding box restricted to `dx^2 + dy^2 <= r^2`, not
the whole box); only entries with percentage strictly above `0.2` appear,
every nonzero value above that threshold does appear, the list is sorted
descending by percentage with the deterministic name-descending tie-break
of Python tuple comparison, and the entity list is exactly the names of
the layer's entities within Euclidean radius, in the layer's entity order
(both lists may be empty). -/
theorem probe_report_spec (decode : String → Option MaskImage) (st : AppSt)
    (x y : Int) (layer : Layer) (img : MaskImage)
    (samples : List (Int × Int)) (cnt : Nat → Nat)
    (hcl : currentLayer st = some layer)
    (hr : 1 ≤ st.probeRadius)
    (himg : layer.maskImg = some img)
    (hiw : img.width = st.project.imageWidth)
    (hih : img.height = st.project.imageHeight)
    (hsamp : samples = probeSamples st.project.imageWidth st.project.imageHeight
      x y st.probeRadius)
    (hcnt : ∀ k, cnt k = sampleCount img.data img.bpl samples k) :
    (∀ e ∈ (probeAt decode st x y).2.1, ∃ k : Nat, k ≠ 0 ∧ 0 < cnt k ∧
        e = ((cnt k : Rat) / (samples.length : Rat) * 100, idxToName layer k) ∧
        (1 : Rat) / 5 < e.1) ∧
    (∀ k : Nat, k ≠ 0 → 0 < samples.length →
      (1 : Rat) / 5 < (cnt k : Rat) / (samples.length : Rat) * 100 →
      ((cnt k : Rat) / (samples.length : Rat) * 100, idxToName layer k) ∈
        (probeAt decode st x y).2.1) ∧
    ((probeAt decode st x y).2.1).Pairwise
      (fun a b => b.1 ≤ a.1 ∧ (a.1 = b.1 → b.2 ≤ a.2)) ∧
    (probeAt decode st x y).2.2 = (layer.entities.filter (fun e =>
      decide ((e.x - (x : Rat)) * (e.x - (x : Rat)) +
        (e.y - (y : Rat)) * (e.y - (y : Rat)) ≤
        ((st.probeRadius * st.probeRadius : Int) : Rat)))).map (fun e => e.name) ∧
    (∀ n : String, n ∈ (probeAt decode st x y).2.2 ↔ ∃ e ∈ layer.entities,
      e.name = n ∧ (e.x - (x : Rat)) * (e.x - (x : Rat)) +
        (e.y - (y : Rat)) * (e.y - (y : Rat)) ≤
        ((st.probeRadius * st.probeRadius : Int) : Rat)) := by
  have hr0 : ¬ st.probeRadius ≤ 0 := by omega
  have hens := (ensure_mask_spec decode st.project.imageWidth
    st.project.imageHeight layer).2.1 img himg hiw hih
  unfold probeAt
  rw [hcl]
  dsimp only
  rw [if_neg hr0, hens]
  dsimp only
  have hbox : (probePixels (max 0 (x - st.probeRadius))
      (min (st.project.imageWidth - 1) (x + st.probeRadius))
      (max 0 (y - st.probeRadius))
      (min (st.project.imageHeight - 1) (y + st.probeRadius))).filter
      (fun p => decide ((p.1 - x) * (p.1 - x) + (p.2 - y) * (p.2 - y) ≤
        st.probeRadius * st.probeRadius)) = samples := by
    rw [hsamp]
    rfl
  refine ⟨?_, ?_, ?_, rfl, ?_⟩
  · intro e he
    rw [mem_probeResults] at he
    obtain ⟨-, k, hk0, hcp, he2, hpe⟩ := he
    rw [hbox] at hcp he2
    refine ⟨k, hk0, ?_, ?_, hpe⟩
    · rw [hcnt k]
      exact hcp
    · rw [hcnt k]
      exact he2
  · intro k hk0 hlen hpct
    have hcp : 0 < cnt k := by
      rcases Nat.eq_zero_or_pos (cnt k) with hz | hz
      · exfalso
        rw [hz] at hpct
        simp at hpct
        norm_num at hpct
      · exact hz
    rw [mem_probeResults, hbox]
    refine ⟨hlen, k, hk0, ?_, ?_, ?_⟩
    · rw [← hcnt k]
      exact hcp
    · rw [← hcnt k]
    · dsimp only
      exact hpct
  · exact probeResults_sorted _ _ _ _ _ _ _
  · intro n
    simp only [List.mem_map, List.mem_filter, decide_eq_true_eq]
    constructor
    · rintro ⟨e, ⟨hm, hd⟩, rfl⟩
      exact ⟨e, hm, rfl, hd⟩
    · rintro ⟨e, hm, rfl, hd⟩
      exact ⟨e, ⟨hm, hd⟩, rfl⟩

theorem probe_report_spec_witness :
    (∀ e ∈ (probeAt (fun _ => none) stW 0 0).2.1, ∃ k : Nat, k ≠ 0 ∧
        0 < sampleCount imgW.data imgW.bpl (probeSamples 2 2 0 0 6) k ∧
        e = ((sampleCount imgW.data imgW.bpl (probeSamples 2 2 0 0 6) k : Rat) /
          ((probeSamples 2 2 0 0 6).length : Rat) * 100, idxToName layerW k) ∧
        (1 : Rat) / 5 < e.1) ∧
    (∀ k : Nat, k ≠ 0 → 0 < (probeSamples 2 2 0 0 6).length →
      (1 : Rat) / 5 < (sampleCount imgW.data imgW.bpl (probeSamples 2 2 0 0 6) k : Rat) /
        ((probeSamples 2 2 0 0 6).length : Rat) * 100 →
      ((sampleCount imgW.data imgW.bpl (probeSamples 2 2 0 0 6) k : Rat) /
        ((probeSamples 2 2 0 0 6).length : Rat) * 100, idxToName layerW k) ∈
        (probeAt (fun _ => none) stW 0 0).2.1) ∧
    ((probeAt (fun _ => none) stW 0 0).2.1).Pairwise
      (fun a b => b.1 ≤ a.1 ∧ (a.1 = b.1 → b.2 ≤ a.2)) ∧
    (probeAt (fun _ => none) stW 0 0).2.2 = (layerW.entities.filter (fun e =>
      decide ((e.x - (0 : Rat)) * (e.x - (0 : Rat)) +
        (e.y - (0 : Rat)) * (e.y - (0 : Rat)) ≤ ((6 * 6 : Int) : Rat)))).map
      (fun e => e.name) ∧
    (∀ n : String, n ∈ (probeAt (fun _ => none) stW 0 0).2.2 ↔
      ∃ e ∈ layerW.entities, e.name = n ∧
        (e.x - (0 : Rat)) * (e.x - (0 : Rat)) +
          (e.y - (0 : Rat)) * (e.y - (0 : Rat)) ≤ ((6 * 6 : Int) : Rat)) :=
  probe_report_spec (fun _ => none) stW 0 0 layerW imgW
    (probeSamples 2 2 0 0 6)
    (fun k => sampleCount imgW.data imgW.bpl (probeSamples 2 2 0 0 6) k)
    rfl (by decide) rfl rfl rfl rfl (fun _ => rfl)

/-! ### Stroke resampling and application (`_apply_stroke_segment`)

Float arithmetic is idealised as exact rational arithmetic.  The step size
`max(1.0, r * 0.5)` is the rational `max 1 (r / 2)`, which for any integer
`r` equals `(max 2 r) / 2`; `int(dist / step)` with
`dist = sqrt(dx² + dy²)` then equals `Nat.sqrt (4 d²) / (max 2 r)`
(floor of a quotient of a square root, computed below without square
roots by squaring).  `round` is Python's round-half-to-even. -/

def pyRound (q : Rat) : Int :=
  if q - ⌊q⌋ < 1 / 2 then ⌊q⌋
  else if 1 / 2 < q - ⌊q⌋ then ⌊q⌋ + 1
  else if 2 ∣ ⌊q⌋ then ⌊q⌋ else ⌊q⌋ + 1

/-- The resampled points of one stroke segment, inclusive of both
endpoints: `[(round(x0 + dx*i/n), round(y0 + dy*i/n)) for i in range(n+1)]`
with `n = max(1, int(dist / step))`, or the single start point when the
distance is zero. -/
def segmentPoints (x0 y0 x1 y1 r : Int) : List (Int × Int) :=
  let dx := x1 - x0
  let dy := y1 - y0
  let d2 := dx * dx + dy * dy
  if d2 = 0 then [(x0, y0)]
  else
    let n := max 1 (Nat.sqrt (4 * d2).toNat / (max 2 r).toNat)
    (List.range (n + 1)).map (fun i : Nat =>
      (pyRound ((x0 : Rat) + (dx : Rat) * ((i : Rat) / (n : Rat))),
       pyRound ((y0 : Rat) + (dy : Rat) * ((i : Rat) / (n : Rat)))))

/-- `_apply_stroke_segment(x0, y0, x1, y1)`: nothing without a layer, an
image path, a drawing tool and a positive radius; otherwise resample the
segment, ensure the mask, capture the segment rectangle's tiles when the
recorder is on this layer, and apply one dab per resampled point (the
overlay update and its dirty-rect bookkeeping do not touch the modelled
state; a missing category for brush or for a category-specific erase mode
returns after the ensure/capture but before any dab). -/
def applyStrokeSegment (decode : String → Option MaskImage) (tsz : Int)
    (st : AppSt) (x0 y0 x1 y1 : Int) : AppSt :=
  match currentLayer st with
  | none => st
  | some layer =>
    match st.project.imagePath with
    | none => st
    | some _ =>
      match st.toolMode with
      | Tool.brush =>
        if st.brushRadius ≤ 0 then st
        else
          let r := st.brushRadius
          let points := segmentPoints x0 y0 x1 y1 r
          let em := ensureLayerIndexMask decode st.project.imageWidth
            st.project.imageHeight layer
          let rec1 :=
            if st.strokeRec.layerId == some layer.id then
              captureBeforeForRect tsz em.1.bpl em.1.data st.strokeRec
                ⟨min x0 x1 - r, min y0 y1 - r,
                  abs (x1 - x0) + 2 * r + 1, abs (y1 - y0) + 2 * r + 1⟩
                st.project.imageWidth st.project.imageHeight
            else st.strokeRec
          match layer.categories.find? (fun c => some c.id == st.currentCategoryId) with
          | none => { st with project := setLayer st.project em.2, strokeRec := rec1 }
          | some cat =>
            let res := points.foldl (fun acc p =>
              let dr := dabSetIndex st.project.imageWidth st.project.imageHeight
                em.1.bpl acc.1 p.1 p.2 r cat.index
              (dr.1, some (match acc.2 with
                | none => dr.2
                | some u => u.united dr.2))) (em.1.data, (none : Option QRect))
            let img2 := { em.1 with data := res.1 }
            let layer3 := { em.2 with maskImg := some img2 }
            { st with project := setLayer st.project layer3, strokeRec := rec1 }
      | Tool.erase =>
        if st.eraseRadius ≤ 0 then st
        else
          let r := st.eraseRadius
          let points := segmentPoints x0 y0 x1 y1 r
          let em := ensureLayerIndexMask decode st.project.imageWidth
            st.project.imageHeight layer
          let rec1 :=
            if st.strokeRec.layerId == some layer.id then
              captureBeforeForRect tsz em.1.bpl em.1.data st.strokeRec
                ⟨min x0 x1 - r, min y0 y1 - r,
                  abs (x1 - x0) + 2 * r + 1, abs (y1 - y0) + 2 * r + 1⟩
                st.project.imageWidth st.project.imageHeight
            else st.strokeRec
          match (match st.eraseMode with
            | EraseMode.eraseAll => some none
            | EraseMode.eraseOnlyCategory =>
              (layer.categories.find? (fun c => some c.id == st.currentCategoryId)).map
                (fun c => some c.index)
            | EraseMode.eraseAllButCategory =>
              (layer.categories.find? (fun c => some c.id == st.currentCategoryId)).map
                (fun c => some c.index) : Option (Option Nat)) with
          | none => { st with project := setLayer st.project em.2, strokeRec := rec1 }
          | some sel =>
            let res := points.foldl (fun acc p =>
              let dr := dabErase st.project.imageWidth st.project.imageHeight
                em.1.bpl acc.1 p.1 p.2 r st.eraseMode sel
              (dr.1, some (match acc.2 with
                | none => dr.2
                | some u => u.united dr.2))) (em.1.data, (none : Option QRect))
            let img2 := { em.1 with data := res.1 }
            let layer3 := { em.2 with maskImg := some img2 }
            { st with project := setLayer st.project layer3, strokeRec := rec1 }
      | _ => st

/-- `on_stroke_started(x, y)` (with the integer cursor position already
truncated): the guard chain, then `begin(layer.id)`, the stroke flags and
the first one-point segment; the second component is the status-bar
message shown on the category guards. -/
def onStrokeStarted (decode : String → Option MaskImage) (tsz : Int)
    (st : AppSt) (ix iy : Int) : AppSt × Option String :=
  match st.project.imagePath with
  | none => (st, none)
  | some _ =>
    if st.toolMode = Tool.probe ∨ st.toolMode = Tool.entityPoint ∨
        st.toolMode = Tool.pan then (st, none)
    else if ¬ (0 ≤ ix ∧ ix < st.project.imageWidth ∧
        0 ≤ iy ∧ iy < st.project.imageHeight) then (st, none)
    else if st.toolMode = Tool.brush ∧ st.currentCategoryId = none then
      (st, some "Select a category to paint.")
    else if st.toolMode = Tool.erase ∧
        (st.eraseMode = EraseMode.eraseOnlyCategory ∨
          st.eraseMode = EraseMode.eraseAllButCategory) ∧
        st.currentCategoryId = none then
      (st, some "Select a category for this erase mode.")
    else
      match currentLayer st with
      | none => (st, none)
      | some layer =>
        let st1 : AppSt := { st with
          strokeRec := recBegin layer.id
          strokeActive := true
          strokeLast := some (ix, iy) }
        (applyStrokeSegment decode tsz st1 ix iy ix iy, none)

theorem pyRound_intCast (k : Int) : pyRound ((k : Int) : Rat) = k := by
  unfold pyRound
  rw [Int.floor_intCast]
  norm_num

/-- `max(1.0, r * 0.5)` equals `(max 2 r) / 2` exactly. -/
theorem step_eq (r : Int) :
    max 1 ((r : Rat) / 2) = (((max 2 r).toNat : Nat) : Rat) / 2 := by
  have h2 : (2 : Int) ≤ max 2 r := le_max_left 2 r
  have hc : (((max 2 r).toNat : Nat) : Rat) = ((max 2 r : Int) : Rat) := by
    have ht : ((max 2 r).toNat : Int) = max 2 r :=
      Int.toNat_of_nonneg (by omega : (0 : Int) ≤ max 2 r)
    exact_mod_cast congrArg (fun z : Int => (z : Rat)) ht
  rw [hc]
  push_cast
  rw [← max_div_div_right (by norm_num : (0 : Rat) ≤ 2) 2 (r : Rat)]
  norm_num

/-- `n₀ = Nat.sqrt (4 d²) / (max 2 r)` is the floor of `dist / step`:
`(n₀ · step)² ≤ d²` and `d² < ((n₀ + 1) · step)²` (stated in `ℕ` after
clearing the denominator 2). -/
theorem resample_n_sq (r d2 : Int) :
    ((Nat.sqrt (4 * d2).toNat / (max 2 r).toNat) * (max 2 r).toNat) ^ 2 ≤
      (4 * d2).toNat ∧
    (4 * d2).toNat <
      ((Nat.sqrt (4 * d2).toNat / (max 2 r).toNat + 1) * (max 2 r).toNat) ^ 2 := by
  have hNpos : 0 < (max 2 r).toNat := by
    have : (2 : Int) ≤ max 2 r := le_max_left 2 r
    omega
  constructor
  · calc ((Nat.sqrt (4 * d2).toNat / (max 2 r).toNat) * (max 2 r).toNat) ^ 2
        ≤ (Nat.sqrt (4 * d2).toNat) ^ 2 :=
          Nat.pow_le_pow_left (Nat.div_mul_le_self _ _) 2
      _ ≤ (4 * d2).toNat := Nat.sqrt_le' _
  · have h1 : Nat.sqrt (4 * d2).toNat <
        (Nat.sqrt (4 * d2).toNat / (max 2 r).toNat + 1) * (max 2 r).toNat :=
      (Nat.div_lt_iff_lt_mul hNpos).1 (Nat.lt_succ_self _)
    have h2 : (4 * d2).toNat < (Nat.sqrt (4 * d2).toNat + 1) ^ 2 := by
      have := Nat.lt_succ_sqrt' (4 * d2).toNat
      simpa [Nat.succ_eq_add_one] using this
    calc (4 * d2).toNat < (Nat.sqrt (4 * d2).toNat + 1) ^ 2 := h2
      _ ≤ ((Nat.sqrt (4 * d2).toNat / (max 2 r).toNat + 1) * (max 2 r).toNat) ^ 2 :=
        Nat.pow_le_pow_left (by omega) 2

/-- The first component of the brush-dab fold ignores the accumulated
dirty rectangle. -/
theorem dabFold_fst (w h bpl r : Int) (idx : Nat) :
    ∀ (l : List (Int × Int)) (m : Mem) (d : Option QRect),
      (l.foldl (fun acc p =>
        ((dabSetIndex w h bpl acc.1 p.1 p.2 r idx).1,
          some (match acc.2 with
            | none => (dabSetIndex w h bpl acc.1 p.1 p.2 r idx).2
            | some u => u.united (dabSetIndex w h bpl acc.1 p.1 p.2 r idx).2)))
        (m, d)).1 =
      l.foldl (fun mm p => (dabSetIndex w h bpl mm p.1 p.2 r idx).1) m := by
  intro l
  induction l with
  | nil =>
    intro m d
    rfl
  | cons p t ih =>
    intro m d
    rw [List.foldl_cons, List.foldl_cons]
    exact ih _ _

theorem segmentPoints_endpoints (x0 y0 x1 y1 r : Int) :
    (segmentPoints x0 y0 x1 y1 r).head? = some (x0, y0) ∧
    (segmentPoints x0 y0 x1 y1 r).getLast? = some (x1, y1) := by
  unfold segmentPoints
  dsimp only
  by_cases hd : (x1 - x0) * (x1 - x0) + (y1 - y0) * (y1 - y0) = 0
  · rw [if_pos hd]
    have hx : x1 - x0 = 0 := by
      have h1 : (x1 - x0) * (x1 - x0) = 0 := by
        nlinarith [mul_self_nonneg (x1 - x0), mul_self_nonneg (y1 - y0)]
      exact mul_self_eq_zero.1 h1
    have hy : y1 - y0 = 0 := by
      have h1 : (y1 - y0) * (y1 - y0) = 0 := by
        nlinarith [mul_self_nonneg (x1 - x0), mul_self_nonneg (y1 - y0)]
      exact mul_self_eq_zero.1 h1
    constructor
    · rfl
    · have hx1 : x1 = x0 := by omega
      have hy1 : y1 = y0 := by omega
      rw [hx1, hy1]
      rfl
  · rw [if_neg hd]
    have hn1 : 1 ≤ max 1 (Nat.sqrt
        (4 * ((x1 - x0) * (x1 - x0) + (y1 - y0) * (y1 - y0))).toNat /
        (max 2 r).toNat) := le_max_left _ _
    have hn0 : ((max 1 (Nat.sqrt
        (4 * ((x1 - x0) * (x1 - x0) + (y1 - y0) * (y1 - y0))).toNat /
        (max 2 r).toNat) : Nat) : Rat) ≠ 0 := Nat.cast_ne_zero.2 (by omega)
    constructor
    · rw [List.head?_eq_getElem?, List.getElem?_map,
        List.getElem?_range (by omega)]
      have hx : (x0 : Rat) + ((x1 - x0 : Int) : Rat) * (((0 : Nat) : Rat) /
          ((max 1 (Nat.sqrt
            (4 * ((x1 - x0) * (x1 - x0) + (y1 - y0) * (y1 - y0))).toNat /
            (max 2 r).toNat) : Nat) : Rat)) = ((x0 : Int) : Rat) := by
        norm_num
      have hy : (y0 : Rat) + ((y1 - y0 : Int) : Rat) * (((0 : Nat) : Rat) /
          ((max 1 (Nat.sqrt
            (4 * ((x1 - x0) * (x1 - x0) + (y1 - y0) * (y1 - y0))).toNat /
            (max 2 r).toNat) : Nat) : Rat)) = ((y0 : Int) : Rat) := by
        norm_num
      rw [Option.map_some']
      rw [hx, hy, pyRound_intCast, pyRound_intCast]
    · rw [List.getLast?_eq_getElem?, List.length_map, List.length_range]
      rw [show max 1 (Nat.sqrt
          (4 * ((x1 - x0) * (x1 - x0) + (y1 - y0) * (y1 - y0))).toNat /
          (max 2 r).toNat) + 1 - 1 = max 1 (Nat.sqrt
          (4 * ((x1 - x0) * (x1 - x0) + (y1 - y0) * (y1 - y0))).toNat /
          (max 2 r).toNat) by omega]
      rw [List.getElem?_map, List.getElem?_range (by omega)]
      have hx : (x0 : Rat) + ((x1 - x0 : Int) : Rat) * (((max 1 (Nat.sqrt
          (4 * ((x1 - x0) * (x1 - x0) + (y1 - y0) * (y1 - y0))).toNat /
          (max 2 r).toNat) : Nat) : Rat) / ((max 1 (Nat.sqrt
          (4 * ((x1 - x0) * (x1 - x0) + (y1 - y0) * (y1 - y0))).toNat /
          (max 2 r).toNat) : Nat) : Rat)) = ((x1 : Int) : Rat) := by
        rw [div_self hn0]
        push_cast
        ring
      have hy : (y0 : Rat) + ((y1 - y0 : Int) : Rat) * (((max 1 (Nat.sqrt
          (4 * ((x1 - x0) * (x1 - x0) + (y1 - y0) * (y1 - y0))).toNat /
          (max 2 r).toNat) : Nat) : Rat) / ((max 1 (Nat.sqrt
          (4 * ((x1 - x0) * (x1 - x0) + (y1 - y0) * (y1 - y0))).toNat /
          (max 2 r).toNat) : Nat) : Rat)) = ((y1 : Int) : Rat) := by
        rw [div_self hn0]
        push_cast
        ring
      rw [Option.map_some']
      rw [hx, hy, pyRound_intCast, pyRound_intCast]

theorem segmentPoints_formula (x0 y0 x1 y1 r : Int)
    (hd : (x1 - x0) * (x1 - x0) + (y1 - y0) * (y1 - y0) ≠ 0) :
    (segmentPoints x0 y0 x1 y1 r).length =
      max 1 (Nat.sqrt (4 * ((x1 - x0) * (x1 - x0) + (y1 - y0) * (y1 - y0))).toNat /
        (max 2 r).toNat) + 1 ∧
    ∀ i : Nat, i < max 1 (Nat.sqrt
        (4 * ((x1 - x0) * (x1 - x0) + (y1 - y0) * (y1 - y0))).toNat /
        (max 2 r).toNat) + 1 →
      (segmentPoints x0 y0 x1 y1 r)[i]? = some
        (pyRound ((x0 : Rat) + ((x1 - x0 : Int) : Rat) * ((i : Rat) /
          ((max 1 (Nat.sqrt
            (4 * ((x1 - x0) * (x1 - x0) + (y1 - y0) * (y1 - y0))).toNat /
            (max 2 r).toNat) : Nat) : Rat))),
         pyRound ((y0 : Rat) + ((y1 - y0 : Int) : Rat) * ((i : Rat) /
          ((max 1 (Nat.sqrt
            (4 * ((x1 - x0) * (x1 - x0) + (y1 - y0) * (y1 - y0))).toNat /
            (max 2 r).toNat) : Nat) : Rat)))) := by
  unfold segmentPoints
  dsimp only
  rw [if_neg hd]
  constructor
  · rw [List.length_map, List.length_range]
  · intro i hi
    rw [List.getElem?_map, List.getElem?_range hi, Option.map_some']

/-- Cast of `resample_n_sq` to `ℚ`: the chosen `n₀` is the floor of
`dist / step`. -/
theorem resample_n_rat (r d2 : Int) (hd2 : 0 < d2) :
    (((Nat.sqrt (4 * d2).toNat / (max 2 r).toNat : Nat) : Rat) *
      max 1 ((r : Rat) / 2)) ^ 2 ≤ (d2 : Rat) ∧
    (d2 : Rat) < ((((Nat.sqrt (4 * d2).toNat / (max 2 r).toNat : Nat) : Rat) + 1) *
      max 1 ((r : Rat) / 2)) ^ 2 := by
  obtain ⟨h1, h2⟩ := resample_n_sq r d2
  rw [step_eq r]
  have h4 : (((4 * d2).toNat : Nat) : Rat) = 4 * (d2 : Rat) := by
    have ht : ((4 * d2).toNat : Int) = 4 * d2 := Int.toNat_of_nonneg (by omega)
    exact_mod_cast congrArg (fun z : Int => (z : Rat)) ht
  constructor
  · have hc : ((((Nat.sqrt (4 * d2).toNat / (max 2 r).toNat) * (max 2 r).toNat) ^ 2 :
        Nat) : Rat) ≤ (((4 * d2).toNat : Nat) : Rat) := Nat.cast_le.2 h1
    push_cast at hc
    rw [h4] at hc
    nlinarith [hc]
  · have hc : (((4 * d2).toNat : Nat) : Rat) <
        ((((Nat.sqrt (4 * d2).toNat / (max 2 r).toNat + 1) * (max 2 r).toNat) ^ 2 :
        Nat) : Rat) := Nat.cast_lt.2 h2
    push_cast at hc
    rw [h4] at hc
    nlinarith [hc]

theorem segmentPoints_horizontal :
    segmentPoints 0 0 100 0 1 = (List.range 101).map (fun i : Nat => ((i : Int), 0)) := by
  unfold segmentPoints
  dsimp only
  rw [if_neg (by norm_num)]
  have hB1 : ((4 * ((100 - 0) * (100 - 0) + (0 - 0) * (0 - 0)) : Int)).toNat = 40000 := rfl
  have hB2 : ((max 2 1 : Int)).toNat = 2 := rfl
  have hB3 : Nat.sqrt 40000 = 200 := by
    rw [show (40000 : Nat) = 200 ^ 2 by norm_num, Nat.sqrt_eq']
  have hB4 : max 1 ((200 : Nat) / 2) = 100 := rfl
  have hn : max 1 (Nat.sqrt
      ((4 * ((100 - 0) * (100 - 0) + (0 - 0) * (0 - 0)) : Int)).toNat /
      ((max 2 1 : Int)).toNat) = 100 := by
    rw [hB1, hB2, hB3]
    exact hB4
  rw [hn]
  refine List.map_congr_left ?_
  intro i hi
  have hx : ((0 : Int) : Rat) + ((100 - 0 : Int) : Rat) * ((i : Rat) / ((100 : Nat) : Rat)) =
      ((i : Int) : Rat) := by
    push_cast
    field_simp
  have hy : ((0 : Int) : Rat) + ((0 - 0 : Int) : Rat) * ((i : Rat) / ((100 : Nat) : Rat)) =
      ((0 : Int) : Rat) := by
    push_cast
    ring
  rw [hx, hy, pyRound_intCast, pyRound_intCast]

/-- Claim C9: between two consecutive recorded stroke points `(x0, y0)` and
`(x1, y1)` the controller resamples the straight segment at step size
`max(1, r * 0.5)`, inclusive of both endpoints (`head?`/`getLast?` below),
rounding each resampled point to the nearest integer pixel (Python's round
half to even) and applying exactly one stamp per resampled point (the
points list holds `n + 1` entries for `n = max(1, ⌊dist / step⌋)`, the
floor characterised by the two squared inequalities, and the dab fold
applies one stamp per entry); consequently the stroke `(0,0) → (100,0)`
with radius 1 (step size 1) leaves every integer `x ∈ [0,100]` at `y = 0`
holding the selected category's nonzero index — no gaps. -/
theorem stroke_resample_spec (decode : String → Option MaskImage) (tsz : Int)
    (st : AppSt) (layer : Layer) (cat : Category) (img : MaskImage) (path : String)
    (hcl : currentLayer st = some layer)
    (hpath : st.project.imagePath = some path)
    (htool : st.toolMode = Tool.brush)
    (hbr : st.brushRadius = 1)
    (hcat : layer.categories.find? (fun c => some c.id == st.currentCategoryId) =
      some cat)
    (hidx : cat.index ≠ 0)
    (hrec : st.strokeRec.layerId = none)
    (himg : layer.maskImg = some img)
    (hiw : img.width = st.project.imageWidth)
    (hih : img.height = st.project.imageHeight)
    (hw : 101 ≤ st.project.imageWidth)
    (hh : 1 ≤ st.project.imageHeight)
    (hbpl : st.project.imageWidth ≤ img.bpl) :
    (∀ x0 y0 x1 y1 r : Int,
      (segmentPoints x0 y0 x1 y1 r).head? = some (x0, y0) ∧
      (segmentPoints x0 y0 x1 y1 r).getLast? = some (x1, y1) ∧
      ((x1 - x0) * (x1 - x0) + (y1 - y0) * (y1 - y0) ≠ 0 →
        ∃ n0 : Nat,
          (((n0 : Nat) : Rat) * max 1 ((r : Rat) / 2)) ^ 2 ≤
            (((x1 - x0) * (x1 - x0) + (y1 - y0) * (y1 - y0) : Int) : Rat) ∧
          (((x1 - x0) * (x1 - x0) + (y1 - y0) * (y1 - y0) : Int) : Rat) <
            ((((n0 : Nat) : Rat) + 1) * max 1 ((r : Rat) / 2)) ^ 2 ∧
          (segmentPoints x0 y0 x1 y1 r).length = max 1 n0 + 1 ∧
          (∀ i : Nat, i < max 1 n0 + 1 →
            (segmentPoints x0 y0 x1 y1 r)[i]? = some
              (pyRound ((x0 : Rat) + ((x1 - x0 : Int) : Rat) *
                ((i : Rat) / ((max 1 n0 : Nat) : Rat))),
               pyRound ((y0 : Rat) + ((y1 - y0 : Int) : Rat) *
                ((i : Rat) / ((max 1 n0 : Nat) : Rat))))))) ∧
    (∃ L3 : Layer,
      currentLayer (applyStrokeSegment decode tsz st 0 0 100 0) = some L3 ∧
      ∃ img2 : MaskImage, L3.maskImg = some img2 ∧
        ∀ xx : Int, 0 ≤ xx → xx ≤ 100 →
          img2.data xx = cat.index ∧ img2.data xx ≠ 0) := by
  refine ⟨?_, ?_⟩
  · intro x0 y0 x1 y1 r
    obtain ⟨hh1, hh2⟩ := segmentPoints_endpoints x0 y0 x1 y1 r
    refine ⟨hh1, hh2, fun hd => ?_⟩
    have hge : (0 : Int) ≤ (x1 - x0) * (x1 - x0) + (y1 - y0) * (y1 - y0) := by
      nlinarith [mul_self_nonneg (x1 - x0), mul_self_nonneg (y1 - y0)]
    have hd2pos : 0 < (x1 - x0) * (x1 - x0) + (y1 - y0) * (y1 - y0) :=
      lt_of_le_of_ne hge (Ne.symm hd)
    obtain ⟨hf1, hf2⟩ := segmentPoints_formula x0 y0 x1 y1 r hd
    obtain ⟨hr1, hr2⟩ := resample_n_rat r
      ((x1 - x0) * (x1 - x0) + (y1 - y0) * (y1 - y0)) hd2pos
    exact ⟨_, hr1, hr2, hf1, hf2⟩
  · have hr0 : ¬ st.brushRadius ≤ 0 := by omega
    have hens := (ensure_mask_spec decode st.project.imageWidth
      st.project.imageHeight layer).2.1 img himg hiw hih
    unfold applyStrokeSegment
    rw [hcl]
    dsimp only
    rw [hpath]
    dsimp only
    rw [htool]
    dsimp only
    rw [if_neg hr0]
    rw [hbr, hens]
    dsimp only
    rw [hcat]
    dsimp only
    rw [segmentPoints_horizontal]
    refine ⟨_, find?_setLayer st.project st.currentLayerId layer _ hcl rfl, _, rfl, ?_⟩
    intro xx hxx0 hxx1
    dsimp only
    rw [dabFold_fst]
    have hmod : xx % img.bpl = xx := Int.emod_eq_of_lt hxx0 (by omega)
    have hdiv : xx / img.bpl = 0 := Int.ediv_eq_zero_of_lt hxx0 (by omega)
    have hval : ((List.range 101).map (fun i : Nat => ((i : Int), 0))).foldl
        (fun mm p => (dabSetIndex st.project.imageWidth st.project.imageHeight
          img.bpl mm p.1 p.2 1 cat.index).1) img.data xx = cat.index := by
      refine foldl_apply_of_touched_const _
        (fun p j => max 0 (p.1 - 1) ≤ j % img.bpl ∧
          j % img.bpl ≤ min (st.project.imageWidth - 1) (p.1 + 1) ∧
          max 0 (p.2 - 1) ≤ j / img.bpl ∧
          j / img.bpl ≤ min (st.project.imageHeight - 1) (p.2 + 1) ∧
          (j % img.bpl - p.1) * (j % img.bpl - p.1) +
            (j / img.bpl - p.2) * (j / img.bpl - p.2) ≤ 1 * 1)
        cat.index ?_ ?_ xx _ (xx, 0) ?_ ?_ img.data
      · intro mm p j hC
        rw [dabSetIndex_fst_apply _ _ _ _ _ _ _ _ (by omega), if_pos hC]
      · intro mm p j hC
        rw [dabSetIndex_fst_apply _ _ _ _ _ _ _ _ (by omega), if_neg hC]
      · rw [List.mem_map]
        refine ⟨xx.toNat, by rw [List.mem_range]; omega, ?_⟩
        simp only [Prod.mk.injEq]
        refine ⟨by omega, by simp⟩
      · dsimp only
        rw [hmod, hdiv]
        refine ⟨by omega, by omega, by omega, by omega, by nlinarith⟩
    refine ⟨hval, ?_⟩
    rw [hval]
    exact hidx

def imgC : MaskImage := ⟨101, 1, 101, fun _ => 0⟩

def layerC : Layer := ⟨"L", "layer", [catW], [], none, some imgC, none⟩

def stC : AppSt :=
  ⟨⟨some "p.png", 101, 1, [layerC]⟩, some "L", some "C", none, Tool.brush,
    1, 6, 6, EraseMode.eraseAll, ⟨none, [], none⟩, false, none⟩

theorem stroke_resample_spec_witness :
    (∀ x0 y0 x1 y1 r : Int,
      (segmentPoints x0 y0 x1 y1 r).head? = some (x0, y0) ∧
      (segmentPoints x0 y0 x1 y1 r).getLast? = some (x1, y1) ∧
      ((x1 - x0) * (x1 - x0) + (y1 - y0) * (y1 - y0) ≠ 0 →
        ∃ n0 : Nat,
          (((n0 : Nat) : Rat) * max 1 ((r : Rat) / 2)) ^ 2 ≤
            (((x1 - x0) * (x1 - x0) + (y1 - y0) * (y1 - y0) : Int) : Rat) ∧
          (((x1 - x0) * (x1 - x0) + (y1 - y0) * (y1 - y0) : Int) : Rat) <
            ((((n0 : Nat) : Rat) + 1) * max 1 ((r : Rat) / 2)) ^ 2 ∧
          (segmentPoints x0 y0 x1 y1 r).length = max 1 n0 + 1 ∧
          (∀ i : Nat, i < max 1 n0 + 1 →
            (segmentPoints x0 y0 x1 y1 r)[i]? = some
              (pyRound ((x0 : Rat) + ((x1 - x0 : Int) : Rat) *
                ((i : Rat) / ((max 1 n0 : Nat) : Rat))),
               pyRound ((y0 : Rat) + ((y1 - y0 : Int) : Rat) *
                ((i : Rat) / ((max 1 n0 : Nat) : Rat))))))) ∧
    (∃ L3 : Layer,
      currentLayer (applyStrokeSegment (fun _ => none) 128 stC 0 0 100 0) = some L3 ∧
      ∃ img2 : MaskImage, L3.maskImg = some img2 ∧
        ∀ xx : Int, 0 ≤ xx → xx ≤ 100 →
          img2.data xx = catW.index ∧ img2.data xx ≠ 0) :=
  stroke_resample_spec (fun _ => none) 128 stC layerC catW imgC "p.png"
    rfl rfl rfl rfl rfl (by decide) rfl rfl rfl rfl (by decide) (by decide) (by decide)

theorem map_self_of_fix {α : Type} (f : α → α) :
    ∀ l : List α, (∀ a ∈ l, f a = a) → l.map f = l := by
  intro l
  induction l with
  | nil =>
    intro _
    rfl
  | cons a t ih =>
    intro h
    rw [List.map_cons, h a (List.mem_cons_self a t),
      ih (fun b hb => h b (List.mem_cons_of_mem a hb))]

/-- Re-installing a layer that is already present (and whose id no other
layer shares) leaves the project unchanged. -/
theorem setLayer_self (p : Project) (layer : Layer)
    (huniq : ∀ l' ∈ p.layers, l'.id = layer.id → l' = layer) :
    setLayer p layer = p := by
  unfold setLayer
  rw [map_self_of_fix _ p.layers ?_]
  · intro a ha
    by_cases hid : a.id = layer.id
    · rw [if_pos hid]
      exact (huniq a ha hid).symm
    · rw [if_neg hid]

/-- Claim C7: every operation with an invalid precondition is rejected as a
distinct signal before any stamp byte is written, with the state returned
untouched: `paint_at` returns `None` when no layer is active, when no
category is selected or found, or when the brush radius is nonpositive
(for the radius guard, which runs after the mask ensure, the state is
exactly unchanged whenever the cached mask is valid — by C6 the ensure
step regenerates only an invalid cache); `erase_at` returns `None` when no
layer is active, the erase radius is nonpositive, or a category-specific
mode (`erase_only_category` / `erase_all_but_category`) lacks a selected
or findable category; and a stroke begun with a tool that requires a
category and none selected aborts with the user-facing status notice and
performs no mutation (the returned state is exactly the input state, the
recorder untouched). -/
theorem precondition_reject_spec (decode : String → Option MaskImage) (tsz : Int)
    (st : AppSt) (x y : Int) :
    (currentLayer st = none → paintAt decode st x y = (st, none) ∧
      eraseAt decode st x y = (st, none)) ∧
    (st.currentCategoryId = none → paintAt decode st x y = (st, none)) ∧
    (∀ layer, currentLayer st = some layer →
      layer.categories.find? (fun c => st.currentCategoryId == some c.id) = none →
      paintAt decode st x y = (st, none)) ∧
    (∀ layer img, currentLayer st = some layer →
      st.brushRadius ≤ 0 →
      layer.maskImg = some img → img.width = st.project.imageWidth →
      img.height = st.project.imageHeight →
      (∀ l' ∈ st.project.layers, l'.id = layer.id → l' = layer) →
      paintAt decode st x y = (st, none)) ∧
    (∀ layer, currentLayer st = some layer → st.eraseRadius ≤ 0 →
      eraseAt decode st x y = (st, none)) ∧
    (∀ layer, currentLayer st = some layer →
      (st.eraseMode = EraseMode.eraseOnlyCategory ∨
        st.eraseMode = EraseMode.eraseAllButCategory) →
      st.currentCategoryId = none →
      eraseAt decode st x y = (st, none)) ∧
    (∀ layer, currentLayer st = some layer →
      (st.eraseMode = EraseMode.eraseOnlyCategory ∨
        st.eraseMode = EraseMode.eraseAllButCategory) →
      layer.categories.find? (fun c => st.currentCategoryId == some c.id) = none →
      eraseAt decode st x y = (st, none)) ∧
    (∀ path, st.project.imagePath = some path → st.toolMode = Tool.brush →
      (0 ≤ x ∧ x < st.project.imageWidth ∧ 0 ≤ y ∧ y < st.project.imageHeight) →
      st.currentCategoryId = none →
      onStrokeStarted decode tsz st x y =
        (st, some "Select a category to paint.")) ∧
    (∀ path, st.project.imagePath = some path → st.toolMode = Tool.erase →
      (0 ≤ x ∧ x < st.project.imageWidth ∧ 0 ≤ y ∧ y < st.project.imageHeight) →
      (st.eraseMode = EraseMode.eraseOnlyCategory ∨
        st.eraseMode = EraseMode.eraseAllButCategory) →
      st.currentCategoryId = none →
      onStrokeStarted decode tsz st x y =
        (st, some "Select a category for this erase mode.")) := by
  refine ⟨?_, ?_, ?_, ?_, ?_, ?_, ?_, ?_, ?_⟩
  · intro hcl
    constructor
    · unfold paintAt
      rw [hcl]
    · unfold eraseAt
      rw [hcl]
  · intro hcc
    unfold paintAt
    cases hcl : currentLayer st with
    | none => rfl
    | some layer =>
      dsimp only
      rw [hcc]
  · intro layer hcl hfind
    unfold paintAt
    rw [hcl]
    dsimp only
    cases hcc : st.currentCategoryId with
    | none => rfl
    | some cid =>
      dsimp only
      rw [← hcc, hfind]
  · intro layer img hcl hr himg hiw hih huniq
    have hens := (ensure_mask_spec decode st.project.imageWidth
      st.project.imageHeight layer).2.1 img himg hiw hih
    unfold paintAt
    rw [hcl]
    dsimp only
    cases hcc : st.currentCategoryId with
    | none => rfl
    | some cid =>
      dsimp only
      cases hfind : layer.categories.find? (fun c => st.currentCategoryId == some c.id) with
      | none =>
        rw [← hcc, hfind]
      | some cat =>
        rw [← hcc, hfind]
        dsimp only
        rw [hens]
        dsimp only
        rw [if_pos hr, setLayer_self st.project layer huniq]
  · intro layer hcl hr
    unfold eraseAt
    rw [hcl]
    dsimp only
    rw [if_pos hr]
  · intro layer hcl hmode hcc
    unfold eraseAt
    rw [hcl]
    dsimp only
    by_cases hr : st.eraseRadius ≤ 0
    · rw [if_pos hr]
    · rw [if_neg hr, if_pos hmode, hcc]
  · intro layer hcl hmode hfind
    unfold eraseAt
    rw [hcl]
    dsimp only
    by_cases hr : st.eraseRadius ≤ 0
    · rw [if_pos hr]
    · rw [if_neg hr, if_pos hmode]
      cases hcc : st.currentCategoryId with
      | none => rfl
      | some cid =>
        dsimp only
        rw [← hcc, hfind]
  · intro path hpath htool hbounds hcc
    unfold onStrokeStarted
    rw [hpath]
    dsimp only
    rw [if_neg (by rw [htool]; decide), if_neg (not_not_intro hbounds),
      if_pos ⟨htool, hcc⟩]
  · intro path hpath htool hbounds hmode hcc
    unfold onStrokeStarted
    rw [hpath]
    dsimp only
    rw [if_neg (by rw [htool]; decide), if_neg (not_not_intro hbounds)]
    rw [if_neg (fun hb => by rw [htool] at hb; cases hb.1)]
    rw [if_pos ⟨htool, hmode, hcc⟩]

def stN : AppSt :=
  ⟨⟨some "p.png", 2, 2, [layerW]⟩, some "L", none, none, Tool.brush,
    6, 6, 6, EraseMode.eraseAll, ⟨none, [], none⟩, false, none⟩

theorem precondition_reject_spec_witness :
    paintAt (fun _ => none) stN 0 0 = (stN, none) ∧
    onStrokeStarted (fun _ => none) 128 stN 0 0 =
      (stN, some "Select a category to paint.") :=
  ⟨(precondition_reject_spec (fun _ => none) 128 stN 0 0).2.1 rfl,
    (precondition_reject_spec (fun _ => none) 128 stN 0 0).2.2.2.2.2.2.2.1 "p.png"
      rfl rfl ⟨by decide, by decide, by decide, by decide⟩ rfl⟩
